import Mathlib

/-!
Verification development for the LoteriaProbabilidad backtesting engine.

The definitions below are a shallow embedding of `sim_metodos.py` and
`sim_reintegros.py`: Python lists become `List`, Python float scores become
`ℚ`, Python's stable `sorted(..., key=...)` becomes `List.insertionSort`
(a stable sort, hence extensionally identical to Python's timsort for a
total key order), Python's `random.sample`/`random` module is modelled by
an explicit oracle `rb : Nat → Nat` supplying the stream of random values
(the value used at the c-th call on a pool of size m is `rb c % m`), and
Python's negative list indexing/slicing is modelled explicitly on `Int`
indices.  Fallible parsing (`int(...)`) returns `Option`.
-/

namespace Loteria

/-- Model of Python `range`-style integer interval `[a, b)` as a list. -/
def intRange (a b : Int) : List Int :=
  (List.range (b - a).toNat).map (fun k : Nat => a + (k : Int))

/-- The effective (nonnegative) position Python's negative indexing maps
index `i` to, for a list of length `L`. -/
def effN (L : Nat) (i : Int) : Nat :=
  if i < 0 then ((L : Int) + i).toNat else i.toNat

/-- Model of the Python slice `l[:i]` for an arbitrary (possibly negative)
integer `i`: a nonnegative `i` keeps the first `i` elements, a negative `i`
drops the last `-i` elements. -/
def pySlice {α : Type} (l : List α) (i : Int) : List α :=
  l.take (effN l.length i)

/-- Model of Python indexing `l[i]` with negative-index wrap-around.
Out-of-range accesses (an error in Python) return `default`. -/
def pyGet {α : Type} [Inhabited α] (l : List α) (i : Int) : α :=
  l.getD (effN l.length i) default

/-- A historical draw as loaded by `cargar`: date string, the six main
numbers (sorted ascending), and the bonus digit (reintegro). -/
structure Draw where
  fecha : String
  numeros : List Int
  reintegro : Int
deriving DecidableEq, Repr

instance : Inhabited Draw := ⟨⟨"", [], 0⟩⟩

/-- Python `sorted(l)` on integers (ascending, stable). -/
def pySorted (l : List Int) : List Int :=
  l.insertionSort (fun a b => a ≤ b)

/-- Python `sorted(l, key=key)`: a stable sort, ascending by `key`. -/
def pySortKey {α : Type} {K : Type} [LinearOrder K] (key : α → K) (l : List α) : List α :=
  l.insertionSort (fun a b => key a ≤ key b)

/-- A raw CSV row with the columns used by `cargar` (all fields are the
unparsed cell strings). -/
structure RawRow where
  fecha : String
  n1 : String
  n2 : String
  n3 : String
  n4 : String
  n5 : String
  n6 : String
  reintegro : String
deriving DecidableEq, Repr

/-- A decimal digit character and its value. -/
def pyDigit (c : Char) : Option Nat :=
  if '0' ≤ c ∧ c ≤ '9' then some (c.toNat - '0'.toNat) else none

/-- The digits of a decimal numeral, most significant first; `none` on the
empty string or any non-digit character. -/
def parseDigits (cs : List Char) : Option Nat :=
  if cs = [] then none
  else cs.foldl (fun acc c =>
    match acc, pyDigit c with
    | some n, some d => some (n * 10 + d)
    | _, _ => none) (some 0)

/-- Model of Python `int(s)` on the decimal literals occurring in the CSVs:
an optional sign followed by decimal digits; anything else raises
`ValueError`, modelled as `none`. -/
def pyInt (s : String) : Option Int :=
  match s.toList with
  | '-' :: rest => (parseDigits rest).map (fun n => -(n : Int))
  | '+' :: rest => (parseDigits rest).map (fun n => (n : Int))
  | cs => (parseDigits cs).map (fun n => (n : Int))

/-- Parse one CSV row into a `Draw` exactly as the loop body of `cargar`
does: `int()` every numeric cell (any failure aborts the whole load) and
sort the six main numbers. -/
def parseRow (row : RawRow) : Option Draw := do
  let ns ← [row.n1, row.n2, row.n3, row.n4, row.n5, row.n6].mapM pyInt
  let rei ← pyInt row.reintegro
  pure { fecha := row.fecha, numeros := pySorted ns, reintegro := rei }

/-- `cargar` of both scripts: parse every row (a parse failure is fatal for
the whole run, modelled as `none`) and reverse into chronological order.
No validation beyond `int()` parsing is performed. -/
def cargar (rows : List RawRow) : Option (List Draw) := do
  let s ← rows.mapM parseRow
  pure s.reverse

/-- Model of `random.sample(pool, k)`: sampling without replacement driven
by the oracle `rb`; the c-th random call on the current pool of size `m`
picks index `rb c % m`. -/
def sampleWR (rb : Nat → Nat) : Nat → List Int → Nat → List Int
  | 0, _, _ => []
  | _ + 1, [], _ => []
  | k + 1, x :: xs, c =>
    let pool := x :: xs
    let j := rb c % pool.length
    pool.getD j 0 :: sampleWR rb k (pool.eraseIdx j) (c + 1)

/-- `range(1,50)` — the Primitiva number range. -/
def rango : List Int := intRange 1 50

/-- A selector: takes the randomness oracle and a history prefix, returns
the selected numbers. -/
def Sel : Type := (Nat → Nat) → List Draw → List Int

/-- `metodo_aleatorio`: `sorted(random.sample(range(1,50),6))`. -/
def metodo_aleatorio (rb : Nat → Nat) (_hist : List Draw) : List Int :=
  pySorted (sampleWR rb 6 rango 0)

/-- A valid Primitiva selection: exactly six distinct numbers in `[1,49]`. -/
def validSel (l : List Int) : Prop :=
  l.length = 6 ∧ l.Nodup ∧ ∀ x ∈ l, 1 ≤ x ∧ x ≤ 49

instance validSel_dec (l : List Int) : Decidable (validSel l) := by
  unfold validSel; infer_instance

/-- An intermediate candidate list: duplicate-free and within `[1,49]`
(the length requirement of `validSel` dropped). -/
def okList (l : List Int) : Prop :=
  l.Nodup ∧ ∀ x ∈ l, 1 ≤ x ∧ x ≤ 49

/-- The frequency table `frec[x]` built by the repeated
`for s in hist: for x in s.numeros: frec[x] += 1` idiom. -/
def frecuencia (hist : List Draw) (x : Int) : Nat :=
  (hist.map (fun s => s.numeros.count x)).sum

/-- The Python tail slice `hist[-v:]` for `v > 0` (and `hist` itself for
`v = 0`, matching `hist[-0:] = hist`). -/
def colaVentana (hist : List Draw) (v : Nat) : List Draw :=
  if v = 0 then hist else hist.drop (hist.length - v)

/-- The `ua` table: for each number the index of the last draw containing
it (`for i,s in enumerate(hist): for x in s.numeros: ua[x]=i`). -/
def ultimaAparicion (hist : List Draw) (x : Int) : Option Nat :=
  (List.range hist.length).foldl
    (fun acc i => if x ∈ (hist.getD i default).numeros then some i else acc) none

/-- `ua.get(x, -1)` as an integer. -/
def uaInt (hist : List Draw) (x : Int) : Int :=
  match ultimaAparicion hist x with
  | some i => (i : Int)
  | none => -1

/-- Python `min(vals)` over a nonempty list (0 on the empty list, which
never occurs in the sources: the score dicts always hold 49 entries). -/
def listMin (l : List ℚ) : ℚ :=
  match l with
  | [] => 0
  | x :: xs => xs.foldl min x

/-- Python `max(vals)` over a nonempty list (0 on the empty list). -/
def listMax (l : List ℚ) : ℚ :=
  match l with
  | [] => 0
  | x :: xs => xs.foldl max x

/-- The local `norm` helper of `metodo_mixto_15_70_15` / `candidatos`:
min-max rescaling over the 49 entries with an epsilon floor of `0.001`. -/
def normQ (f : Int → ℚ) : Int → ℚ :=
  let vals := rango.map f
  let mn := listMin vals
  let mx := listMax vals
  let r := max (mx - mn) (1 / 1000)
  fun x => (f x - mn) / r

/-- `metodo_frecuencias`: the top `n` numbers by all-time frequency
(`sorted(sorted(range(1,50), key=lambda x:-frec[x])[:n])`). -/
def metodo_frecuencias (_rb : Nat → Nat) (hist : List Draw) (n : Nat) : List Int :=
  pySorted ((pySortKey (fun x => -(frecuencia hist x : Int)) rango).take n)

/-- `metodo_frios`: the `n` least frequent numbers. -/
def metodo_frios (_rb : Nat → Nat) (hist : List Draw) (n : Nat) : List Int :=
  pySorted ((pySortKey (fun x => (frecuencia hist x : Int)) rango).take n)

/-- `metodo_debidos`: the `n` most overdue numbers, key
`-(total-1-ua.get(x,-1))`. -/
def metodo_debidos (_rb : Nat → Nat) (hist : List Draw) (n : Nat) : List Int :=
  pySorted ((pySortKey
    (fun x => -((hist.length : Int) - 1 - uaInt hist x)) rango).take n)

/-- `metodo_calientes`: the top `n` numbers in the trailing `ventana`
draws. -/
def metodo_calientes (_rb : Nat → Nat) (hist : List Draw) (ventana n : Nat) : List Int :=
  let recent := colaVentana hist ventana
  pySorted ((pySortKey (fun x => -(frecuencia recent x : Int)) rango).take n)

/-- The `total >= 10` body of `metodo_mixto_15_70_15`: the 15% frequency +
70% recent-hot + 15% overdue weighted blend over normalized scores. -/
def mixtoCore (hist : List Draw) (ventana n : Nat) : List Int :=
  let total := hist.length
  let frec := frecuencia hist
  let fe : ℚ := (total : ℚ) * 6 / 49
  let sf : Int → ℚ := fun x => ((frec x : ℚ) - fe) / max fe 1
  let vc : Nat := max (min ventana (total / 3)) 5
  let fc := frecuencia (colaVentana hist vc)
  let fer : ℚ := (vc : ℚ) * 6 / 49
  let sc : Int → ℚ := fun x => ((fc x : ℚ) - fer) / max fer 1
  let sd : Int → ℚ := fun x =>
    let q : ℚ := (total : ℚ) / (max (frec x) 1 : ℚ)
    (((total : ℚ) - 1 - (uaInt hist x : ℚ)) - q) / max q 1
  let nf := normQ sf
  let nc := normQ sc
  let nd := normQ sd
  let fin : Int → ℚ := fun x => 15/100 * nf x + 70/100 * nc x + 15/100 * nd x
  pySorted ((pySortKey (fun x => -(fin x)) rango).take n)

/-- `metodo_mixto_15_70_15`: the weighted blend, falling back to
`metodo_aleatorio` on histories shorter than 10 draws. -/
def metodo_mixto_15_70_15 (rb : Nat → Nat) (hist : List Draw) (ventana n : Nat) : List Int :=
  if hist.length < 10 then metodo_aleatorio rb hist else mixtoCore hist ventana n

/-- One `+= 1` update of a Python dict modelled as an insertion-ordered
association list: an existing key is updated in place, a new key is
appended (Python dicts iterate in insertion order). -/
def bumpAssoc {κ : Type} [DecidableEq κ] (d : List (κ × Nat)) (k : κ) : List (κ × Nat) :=
  if d.any (fun p => p.1 = k) then
    d.map (fun p => if p.1 = k then (p.1, p.2 + 1) else p)
  else d ++ [(k, 1)]

/-- The ordered pairs `(nums[i], nums[j])`, `i < j`, in the order the
double loop of `metodo_pares_frecuentes` visits them. -/
def pairsOf (nums : List Int) : List (Int × Int) :=
  match nums with
  | [] => []
  | x :: xs => xs.map (fun y => (x, y)) ++ pairsOf xs

/-- The `pares` co-occurrence dict of `metodo_pares_frecuentes`, in
insertion order. -/
def paresDict (hist : List Draw) : List ((Int × Int) × Nat) :=
  hist.foldl (fun d s => (pairsOf s.numeros).foldl bumpAssoc d) []

/-- `metodo_pares_frecuentes`: score each number by the summed counts of
the 50 most frequent pairs it participates in, return the top `n`. -/
def metodo_pares_frecuentes (_rb : Nat → Nat) (hist : List Draw) (n : Nat) : List Int :=
  let top50 := (pySortKey (fun p => -(p.2 : Int)) (paresDict hist)).take 50
  let score : Int → Nat := fun x =>
    (top50.map (fun p =>
      (if p.1.1 = x then p.2 else 0) + (if p.1.2 = x then p.2 else 0))).sum
  pySorted ((pySortKey (fun x => -(score x : Int)) rango).take n)

/-- The "add distinct elements until the selection reaches `limit`" loop
(`for x in orden: if len(sel)<limit: sel.add(x)` on a set, or the
equivalent `if len(sel)<limit and x not in sel: sel.append(x)` on a list). -/
def fillTo (limit : Nat) (sel : List Int) (xs : List Int) : List Int :=
  xs.foldl (fun sel x =>
    if sel.length < limit ∧ x ∉ sel then sel ++ [x] else sel) sel

/-- The `len(hist) >= ventana` body of `metodo_rachas_mix`: 3 hot + 2 cold
+ 1 frequent. -/
def rachasMixCore (hist : List Draw) (ventana : Nat) : List Int :=
  let recent := colaVentana hist ventana
  let fc := frecuencia recent
  let frec := frecuencia hist
  let orden_cal := pySortKey (fun x => -(fc x : Int)) rango
  let orden_fri := pySortKey (fun x => (fc x : Int)) rango
  let orden_frec := pySortKey (fun x => -(frec x : Int)) rango
  pySorted (fillTo 6 (fillTo 5 (fillTo 3 [] orden_cal) orden_fri) orden_frec)

/-- `metodo_rachas_mix`: 3 recent-hot + 2 cold + 1 frequent, falling back
to `metodo_aleatorio` on histories shorter than `ventana` draws.  The `n`
argument is accepted but (as in the source) unused by the body. -/
def metodo_rachas_mix (rb : Nat → Nat) (hist : List Draw) (ventana _n : Nat) : List Int :=
  if hist.length < ventana then metodo_aleatorio rb hist
  else rachasMixCore hist ventana

/-- The `len(hist) >= 10` body of `metodo_ensemble`: one unweighted vote
per criterion top list (each criterion that accepts `n` is called with
`n=15`; `metodo_rachas_mix` ignores it and contributes its 6 numbers). -/
def ensembleCore (rb : Nat → Nat) (hist : List Draw) (n : Nat) : List Int :=
  let tops : List (List Int) :=
    [metodo_frecuencias rb hist 15,
     metodo_calientes rb hist 12 15,
     metodo_debidos rb hist 15,
     metodo_rachas_mix rb hist 12 15,
     metodo_mixto_15_70_15 rb hist 12 15]
  let votos : Int → Nat := fun x =>
    (tops.map (fun t => if x ∈ t then 1 else 0)).sum
  pySorted ((pySortKey (fun x => -(votos x : Int)) rango).take n)

/-- `metodo_ensemble`: ensemble voting over five criteria, falling back to
`metodo_aleatorio` on histories shorter than 10 draws. -/
def metodo_ensemble (rb : Nat → Nat) (hist : List Draw) (n : Nat) : List Int :=
  if hist.length < 10 then metodo_aleatorio rb hist else ensembleCore rb hist n

/-- The `len(hist) >= 10` body of `metodo_alta_confianza`: numbers in the
top-12 of at least `umbral` of five criteria, padded with the next-best by
participation count. -/
def altaConfianzaCore (rb : Nat → Nat) (hist : List Draw) (n umbral : Nat) : List Int :=
  let sets : List (List Int) :=
    [metodo_frecuencias rb hist 12,
     metodo_calientes rb hist 12 12,
     metodo_debidos rb hist 12,
     metodo_rachas_mix rb hist 12 6,
     metodo_mixto_15_70_15 rb hist 12 12]
  let conteo : Int → Nat := fun x =>
    (sets.map (fun t => if x ∈ t then 1 else 0)).sum
  let candidatos := pySortKey (fun x => -(conteo x : Int)) rango
  let selec := candidatos.filter (fun x => umbral ≤ conteo x)
  let selec :=
    if selec.length < n then selec ++ candidatos.filter (fun x => x ∉ selec)
    else selec
  pySorted (selec.take n)

/-- `metodo_alta_confianza`: consensus selector, falling back to
`metodo_aleatorio` on histories shorter than 10 draws. -/
def metodo_alta_confianza (rb : Nat → Nat) (hist : List Draw) (n umbral : Nat) : List Int :=
  if hist.length < 10 then metodo_aleatorio rb hist
  else altaConfianzaCore rb hist n umbral

/-- `score_multiventana`: weighted ratio of observed to expected frequency
over several trailing windows (default `((5,0.50),(12,0.30),(30,0.20))`,
passed explicitly by the callers in this embedding). -/
def score_multiventana (hist : List Draw) (ventanas : List (Nat × ℚ)) : Int → ℚ :=
  fun x =>
    (ventanas.map (fun vp =>
      let recent := colaVentana hist vp.1
      let fe : ℚ := (recent.length : ℚ) * 6 / 49
      vp.2 * ((frecuencia recent x : ℚ) / max fe (1 / 1000)))).sum

/-- The default window/weight configuration of `score_multiventana`. -/
def ventanasDefault : List (Nat × ℚ) := [(5, 50/100), (12, 30/100), (30, 20/100)]

/-- `score_aceleracion`: short-window frequency over its long-window
expectation; identically zero when the history is shorter than the long
window. -/
def score_aceleracion (hist : List Draw) (ventana_corta ventana_larga : Nat) : Int → ℚ :=
  fun x =>
    if hist.length < ventana_larga then 0
    else
      let fl := frecuencia (colaVentana hist ventana_larga)
      let fc := frecuencia (colaVentana hist ventana_corta)
      let ratio : ℚ := (ventana_corta : ℚ) / (ventana_larga : ℚ)
      (fc x : ℚ) / max ((fl x : ℚ) * ratio) (1 / 1000)

/-- Python `max(d.values()) or 1` over the 49 score entries: the maximum,
or `1` when the maximum is (falsy) zero. -/
def maxOr1 (f : Int → ℚ) : ℚ :=
  let m := listMax (rango.map f)
  if m = 0 then 1 else m

/-- Python `max(l)` on a nonempty list of integers (0 on `[]`, which in
Python would raise). -/
def pyMax (l : List Int) : Int := l.foldl max l.headI

/-- Python `min(l)` on a nonempty list of integers (0 on `[]`). -/
def pyMin (l : List Int) : Int := l.foldl min l.headI

/-- `refinar_combinacion`: structural refinement.  Returns the sorted
combination unchanged when the history is short (< 10) or the sum lies in
`[100,200]`; otherwise swaps the extreme element for the most frequent
unused number on the corresponding side of it (at most one swap). -/
def refinar_combinacion (combo : List Int) (hist : List Draw) : List Int :=
  if hist.length < 10 then pySorted combo
  else
    let suma := combo.sum
    if 100 ≤ suma ∧ suma ≤ 200 then pySorted combo
    else
      let frec := frecuencia hist
      if 200 < suma then
        let peor := pyMax combo
        let candidatos := pySortKey (fun x => -(frec x : Int))
          (rango.filter (fun x => x ∉ combo ∧ x < peor))
        match candidatos with
        | [] => pySorted combo
        | c :: _ => pySorted (combo.erase peor ++ [c])
      else
        let peor := pyMin combo
        let candidatos := pySortKey (fun x => -(frec x : Int))
          (rango.filter (fun x => x ∉ combo ∧ peor < x))
        match candidatos with
        | [] => pySorted combo
        | c :: _ => pySorted (combo.erase peor ++ [c])

/-- The `len(hist) >= 10` body of `metodo_rachas_mix_v2`: 3 recent-hot +
2 from the 15/70/15 mix + 1 frequent, no cold numbers. -/
def rachasMixV2Core (rb : Nat → Nat) (hist : List Draw) (n : Nat) : List Int :=
  let cal := metodo_calientes rb hist 12 15
  let mix := metodo_mixto_15_70_15 rb hist 12 15
  let frec := metodo_frecuencias rb hist 15
  pySorted ((fillTo 6 (fillTo 5 (fillTo 3 [] cal) mix) frec).take n)

/-- `metodo_rachas_mix_v2`. -/
def metodo_rachas_mix_v2 (rb : Nat → Nat) (hist : List Draw) (n : Nat) : List Int :=
  if hist.length < 10 then metodo_aleatorio rb hist else rachasMixV2Core rb hist n

/-- The rank-weighted votes one top list contributes in
`metodo_ensemble_v2` (`votos[x] += 15 - rank`). -/
def rankVotes15 (top : List Int) (x : Int) : Nat :=
  (top.enum.map (fun p => if p.2 = x then 15 - p.1 else 0)).sum

/-- The `len(hist) >= 10` body of `metodo_ensemble_v2`: position-weighted
voting over the three methods with demonstrated signal. -/
def ensembleV2Core (rb : Nat → Nat) (hist : List Draw) (n : Nat) : List Int :=
  let votos : Int → Nat := fun x =>
    rankVotes15 (metodo_mixto_15_70_15 rb hist 12 15) x +
    rankVotes15 (metodo_calientes rb hist 12 15) x +
    rankVotes15 (metodo_frecuencias rb hist 15) x
  pySorted ((pySortKey (fun x => -(votos x : Int)) rango).take n)

/-- `metodo_ensemble_v2`. -/
def metodo_ensemble_v2 (rb : Nat → Nat) (hist : List Draw) (n : Nat) : List Int :=
  if hist.length < 10 then metodo_aleatorio rb hist else ensembleV2Core rb hist n

/-- The `len(hist) >= 10` body of `metodo_alta_confianza_v2`: rank all 49
numbers by how many of the three top-12 sets contain them, take the first
`n`. -/
def altaConfianzaV2Core (rb : Nat → Nat) (hist : List Draw) (n : Nat) : List Int :=
  let sets : List (List Int) :=
    [metodo_mixto_15_70_15 rb hist 12 12,
     metodo_calientes rb hist 12 12,
     metodo_frecuencias rb hist 12]
  let conteo : Int → Nat := fun x =>
    (sets.map (fun t => if x ∈ t then 1 else 0)).sum
  let candidatos := pySortKey (fun x => -(conteo x : Int)) rango
  pySorted (candidatos.take n)

/-- `metodo_alta_confianza_v2`. -/
def metodo_alta_confianza_v2 (rb : Nat → Nat) (hist : List Draw) (n : Nat) : List Int :=
  if hist.length < 10 then metodo_aleatorio rb hist else altaConfianzaV2Core rb hist n

/-- The combined 70% multi-window momentum + 30% acceleration score used
by the v3 and diagnostic rachas selectors. -/
def scoreMvAc (hist : List Draw) : Int → ℚ :=
  let mv := score_multiventana hist ventanasDefault
  let ac := score_aceleracion hist 8 30
  let norm_mv := maxOr1 mv
  let norm_ac := maxOr1 ac
  fun x => 70/100 * (mv x / norm_mv) + 30/100 * (ac x / norm_ac)

/-- `metodo_rachas_mix_v3`: multi-window momentum + structural refinement,
deferring to v2 on histories shorter than 30 draws. -/
def metodo_rachas_mix_v3 (rb : Nat → Nat) (hist : List Draw) (n : Nat) : List Int :=
  if hist.length < 30 then metodo_rachas_mix_v2 rb hist n
  else
    refinar_combinacion
      ((pySortKey (fun x => -(scoreMvAc hist x)) rango).take n) hist

/-- The weighted vote total of the v3 ensemble: 1.6× multi-window +
1.2× acceleration + rank-weighted all-time frequency (top-20). -/
def ensembleV3Votes (rb : Nat → Nat) (hist : List Draw) : Int → ℚ :=
  let mv := score_multiventana hist ventanasDefault
  let nmv := maxOr1 mv
  let ac := score_aceleracion hist 8 30
  let nac := maxOr1 ac
  let top_f := metodo_frecuencias rb hist 20
  fun x =>
    16/10 * (mv x / nmv) + 12/10 * (ac x / nac) +
      (top_f.enum.map (fun p => if p.2 = x then ((20 - p.1 : ℚ)) / 20 else 0)).sum

/-- `metodo_ensemble_v3`: weighted voting + structural refinement,
deferring to v2 on histories shorter than 30 draws. -/
def metodo_ensemble_v3 (rb : Nat → Nat) (hist : List Draw) (n : Nat) : List Int :=
  if hist.length < 30 then metodo_ensemble_v2 rb hist n
  else
    refinar_combinacion
      ((pySortKey (fun x => -(ensembleV3Votes rb hist x)) rango).take n) hist

/-- The multi-window consensus candidate ranking shared by
`metodo_alta_confianza_v3` and `metodo_ac_mv_sinref`: sort by window
participation count, acceleration as tie-break (a lexicographic key). -/
def acV3Candidatos (rb : Nat → Nat) (hist : List Draw) : List Int :=
  let sets : List (List Int) :=
    [metodo_calientes rb hist 5 10,
     metodo_calientes rb hist 12 10,
     metodo_calientes rb hist 30 10]
  let ac := score_aceleracion hist 8 30
  let conteo : Int → Nat := fun x =>
    (sets.map (fun t => if x ∈ t then 1 else 0)).sum
  pySortKey (fun x => toLex ((-(conteo x : Int), -(ac x)) : Int × ℚ)) rango

/-- `metodo_alta_confianza_v3`: multi-window consensus + structural
refinement, deferring to v2 on histories shorter than 30 draws. -/
def metodo_alta_confianza_v3 (rb : Nat → Nat) (hist : List Draw) (n : Nat) : List Int :=
  if hist.length < 30 then metodo_alta_confianza_v2 rb hist n
  else refinar_combinacion ((acV3Candidatos rb hist).take n) hist

/-- `metodo_rachas_mv_sinref`: the v3 momentum selector without the
structural refinement step. -/
def metodo_rachas_mv_sinref (rb : Nat → Nat) (hist : List Draw) (n : Nat) : List Int :=
  if hist.length < 30 then metodo_rachas_mix_v2 rb hist n
  else pySorted ((pySortKey (fun x => -(scoreMvAc hist x)) rango).take n)

/-- `metodo_rachas_ventana5`: 4 from a very short hot window + 2 frequent,
no refinement. -/
def metodo_rachas_ventana5 (rb : Nat → Nat) (hist : List Draw) (n : Nat) : List Int :=
  if hist.length < 10 then metodo_aleatorio rb hist
  else
    let cal := metodo_calientes rb hist 5 15
    let frec := metodo_frecuencias rb hist 15
    pySorted ((fillTo 6 (fillTo 4 [] cal) frec).take n)

/-- `metodo_ensemble_mv_sinref`: the v3 ensemble voting without the
structural refinement step. -/
def metodo_ensemble_mv_sinref (rb : Nat → Nat) (hist : List Draw) (n : Nat) : List Int :=
  if hist.length < 30 then metodo_ensemble_v2 rb hist n
  else pySorted ((pySortKey (fun x => -(ensembleV3Votes rb hist x)) rango).take n)

/-- `metodo_ac_mv_sinref`: the v3 consensus without the structural
refinement step. -/
def metodo_ac_mv_sinref (rb : Nat → Nat) (hist : List Draw) (n : Nat) : List Int :=
  if hist.length < 30 then metodo_alta_confianza_v2 rb hist n
  else pySorted ((acV3Candidatos rb hist).take n)

/-- `len(set(pred) & set(nums))`: the number of distinct predicted numbers
that occur in the drawn numbers. -/
def aciertos (pred nums : List Int) : Nat :=
  (pred.dedup.filter (fun x => x ∈ nums)).length

/-- The prediction the backtest computes at loop index `i`, repetition `r`:
the selector applied to the history prefix `sorteos[:i]` only.  `rbAt i r`
is the randomness oracle consumed by that invocation. -/
def backtestPred (metodo : Sel) (rbAt : Int → Nat → Nat → Nat)
    (sorteos : List Draw) (i : Int) (r : Nat) : List Int :=
  metodo (rbAt i r) (pySlice sorteos i)

/-- The `mejor` inner loop of `backtest`: best hit count over `reps`
repeated trials against the draw at index `i`. -/
def mejorDe (metodo : Sel) (rbAt : Int → Nat → Nat → Nat)
    (sorteos : List Draw) (i : Int) (reps : Nat) : Nat :=
  (List.range reps).foldl
    (fun m r =>
      max m (aciertos (backtestPred metodo rbAt sorteos i r) (pyGet sorteos i).numeros))
    0

/-- `total_ac[k] += 1` (a no-op when `k` is out of range, which in Python
would raise; `k ≤ 6` always holds for well-formed draws). -/
def bumpAt (l : List Nat) (k : Nat) : List Nat :=
  l.set k (l.getD k 0 + 1)

/-- One iteration of the `backtest` loop: skip when the history prefix is
empty, otherwise increment the histogram bucket of the best hit count. -/
def backtestStep (metodo : Sel) (rbAt : Int → Nat → Nat → Nat)
    (sorteos : List Draw) (reps : Nat) (acc : List Nat) (i : Int) : List Nat :=
  if pySlice sorteos i = [] then acc
  else bumpAt acc (mejorDe metodo rbAt sorteos i reps)

/-- The hit-count histogram (`total_ac`) produced by `backtest` over loop
indices `len(sorteos)-n .. len(sorteos)-1` (note: `len(sorteos)-n` may be
negative, in which case Python's negative indexing silently wraps). -/
def backtestHist (sorteos : List Draw) (metodo : Sel)
    (rbAt : Int → Nat → Nat → Nat) (n reps : Nat) : List Nat :=
  (intRange ((sorteos.length : Int) - n) (sorteos.length : Int)).foldl
    (backtestStep metodo rbAt sorteos reps) (List.replicate 7 0)

/-- `backtest`: histogram plus derived mean and the ≥3-hit / ≥4-hit
percentages. -/
def backtest (sorteos : List Draw) (metodo : Sel)
    (rbAt : Int → Nat → Nat → Nat) (n reps : Nat) : List Nat × ℚ × ℚ × ℚ :=
  let total_ac := backtestHist sorteos metodo rbAt n reps
  let total := total_ac.sum
  let media : ℚ := (((total_ac.enum.map (fun p => p.1 * p.2)).sum : Nat) : ℚ) / (max total 1 : ℚ)
  let pct3 : ℚ := ((total_ac.drop 3).sum : ℚ) / (max total 1 : ℚ) * 100
  let pct4 : ℚ := ((total_ac.drop 4).sum : ℚ) / (max total 1 : ℚ) * 100
  (total_ac, media, pct3, pct4)

/-- A Primitiva prize category as returned by `premio`. -/
inductive Cat where
  | BOTE | c2a | c3a | c4a | c5a | c6a | R
deriving DecidableEq, Repr

/-- `premio`: maps (main-number hits, reintegro match) to the prize
category and its fixed value (jackpot-tier categories carry value 0). -/
def premio (ac_nums : Nat) (ac_rein : Bool) : Option Cat × Nat :=
  if ac_nums = 6 ∧ ac_rein then (some Cat.BOTE, 0)
  else if ac_nums = 6 then (some Cat.c2a, 0)
  else if ac_nums = 5 ∧ ac_rein then (some Cat.c3a, 20000)
  else if ac_nums = 5 then (some Cat.c4a, 1500)
  else if ac_nums = 4 then (some Cat.c5a, 48)
  else if ac_nums = 3 then (some Cat.c6a, 8)
  else if ac_rein then (some Cat.R, 1)
  else (none, 0)

/-- A ticket: six main numbers plus a reintegro guess. -/
def Boleto : Type := List Int × Int

/-- The ticket portfolio the prize simulator plays at loop index `i`: the
strategy applied to the history prefix `sorteos[:i]` only. -/
def simStepTickets (estrategia : List Draw → List Boleto)
    (sorteos : List Draw) (i : Int) : List Boleto :=
  estrategia (pySlice sorteos i)

/-- The `mejor_val` inner loop of `simular_con_reintegros`: the value of
the best prize category hit by any ticket of one draw. -/
def mejorVal (boletos : List Boleto) (gan : List Int) (rein : Int) : Nat :=
  boletos.foldl
    (fun m b =>
      match premio (aciertos b.1 gan) (b.2 == rein) with
      | (some _, val) => if m < val then val else m
      | (none, _) => m)
    0

/-- The `conteo[cat] += 1` updates one draw contributes: one increment per
ticket whose prize category is non-null. -/
def conteoStep (boletos : List Boleto) (gan : List Int) (rein : Int)
    (conteo : Cat → Nat) : Cat → Nat :=
  boletos.foldl
    (fun c b =>
      match premio (aciertos b.1 gan) (b.2 == rein) with
      | (some cat, _) => fun k => if k = cat then c k + 1 else c k
      | (none, _) => c)
    conteo

/-- One iteration of the `simular_con_reintegros` loop: buy the tickets
(cost), bump the per-category counts for every winning ticket, add the
value of the single best category hit to the winnings. -/
def simStep (sorteos : List Draw) (estrategia : List Draw → List Boleto)
    (st : Nat × Nat × (Cat → Nat)) (i : Int) : Nat × Nat × (Cat → Nat) :=
  let s := pyGet sorteos i
  let boletos := simStepTickets estrategia sorteos i
  (st.1 + boletos.length,
   st.2.1 + mejorVal boletos s.numeros s.reintegro,
   conteoStep boletos s.numeros s.reintegro st.2.2)

/-- `simular_con_reintegros`: walk-forward prize simulation returning
(total cost, total winnings, balance, per-category counts). -/
def simular_con_reintegros (sorteos : List Draw)
    (estrategia : List Draw → List Boleto) (n_sims : Nat) :
    Nat × Nat × Int × (Cat → Nat) :=
  let res :=
    (intRange ((sorteos.length : Int) - n_sims) (sorteos.length : Int)).foldl
      (simStep sorteos estrategia) (0, 0, fun _ => 0)
  (res.1, res.2.1, (res.2.1 : Int) - (res.1 : Int), res.2.2)

/-! ### Basic facts about the Python-modelling helpers -/

theorem length_intRange (a b : Int) : (intRange a b).length = (b - a).toNat := by
  rw [intRange, List.length_map, List.length_range]

theorem mem_intRange {a b x : Int} : x ∈ intRange a b ↔ a ≤ x ∧ x < b := by
  simp only [intRange, List.mem_map, List.mem_range]
  constructor
  · rintro ⟨k, hk, rfl⟩
    omega
  · intro h
    exact ⟨(x - a).toNat, by omega, by omega⟩

theorem nodup_intRange (a b : Int) : (intRange a b).Nodup := by
  rw [intRange]
  apply List.Nodup.map _ (List.nodup_range _)
  intro x y h
  simp only [add_right_inj, Int.natCast_inj] at h
  exact h

theorem rango_length : rango.length = 49 := rfl

theorem rango_nodup : rango.Nodup := nodup_intRange 1 50

theorem mem_rango {x : Int} : x ∈ rango ↔ 1 ≤ x ∧ x ≤ 49 := by
  rw [rango, mem_intRange]
  omega

theorem pySlice_coe (l : List α) (i : Nat) : pySlice l (i : Int) = l.take i := by
  rw [pySlice, effN, if_neg (by omega), Int.toNat_natCast]

theorem pySlice_eq_take (l : List α) (i : Int) :
    pySlice l i = l.take (effN l.length i) := rfl

theorem pyGet_eq_getD {α : Type} [Inhabited α] (l : List α) (i : Int) :
    pyGet l i = l.getD (effN l.length i) default := rfl

theorem pyGet_mem_or_default {α : Type} [Inhabited α] (l : List α) (i : Int) :
    pyGet l i ∈ l ∨ pyGet l i = default := by
  rw [pyGet_eq_getD]
  rcases Nat.lt_or_ge (effN l.length i) l.length with h | h
  · left
    rw [List.getD_eq_getElem l default h]
    exact List.getElem_mem h
  · right
    exact List.getD_eq_default l default h

/-! ### The stable sort model -/

instance keyLe_total {α K : Type} [LinearOrder K] (key : α → K) :
    IsTotal α (fun a b => key a ≤ key b) :=
  ⟨fun a b => le_total (key a) (key b)⟩

instance keyLe_trans {α K : Type} [LinearOrder K] (key : α → K) :
    IsTrans α (fun a b => key a ≤ key b) :=
  ⟨fun _ _ _ h h2 => le_trans h h2⟩

theorem pySortKey_perm {α K : Type} [LinearOrder K] (key : α → K) (l : List α) :
    List.Perm (pySortKey key l) l :=
  List.perm_insertionSort _ l

theorem pySortKey_length {α K : Type} [LinearOrder K] (key : α → K) (l : List α) :
    (pySortKey key l).length = l.length :=
  (pySortKey_perm key l).length_eq

theorem pySortKey_mem {α K : Type} [LinearOrder K] (key : α → K) {l : List α} {x : α} :
    x ∈ pySortKey key l ↔ x ∈ l :=
  (pySortKey_perm key l).mem_iff

theorem pySortKey_nodup {α K : Type} [LinearOrder K] (key : α → K) {l : List α}
    (h : l.Nodup) : (pySortKey key l).Nodup :=
  ((pySortKey_perm key l).symm.nodup h)

theorem pySortKey_sorted {α K : Type} [LinearOrder K] (key : α → K) (l : List α) :
    List.Sorted (fun a b => key a ≤ key b) (pySortKey key l) :=
  List.sorted_insertionSort _ l

theorem pySortKey_head_le {α K : Type} [LinearOrder K] (key : α → K) {l : List α}
    {c : α} {rest : List α} (h : pySortKey key l = c :: rest) :
    ∀ y ∈ l, key c ≤ key y := by
  intro y hy
  have hmem : y ∈ c :: rest := h ▸ (pySortKey_mem key).2 hy
  rcases List.mem_cons.1 hmem with rfl | hmem
  · exact le_refl _
  · have hs := pySortKey_sorted key l
    rw [h] at hs
    exact List.rel_of_sorted_cons hs y hmem

theorem pySorted_perm (l : List Int) : List.Perm (pySorted l) l :=
  List.perm_insertionSort _ l

theorem pySorted_mem {l : List Int} {x : Int} : x ∈ pySorted l ↔ x ∈ l :=
  (pySorted_perm l).mem_iff

theorem pySorted_length (l : List Int) : (pySorted l).length = l.length :=
  (pySorted_perm l).length_eq

theorem pySorted_nodup {l : List Int} (h : l.Nodup) : (pySorted l).Nodup :=
  (pySorted_perm l).symm.nodup h

/-- The `sorted(sorted(range(1,50), key=...)[:n])` idiom: its result has
exactly `min n 49` elements, no duplicates, all in `[1,49]` — for any key. -/
theorem topN_spec {K : Type} [LinearOrder K] (key : Int → K) (n : Nat) :
    (pySorted ((pySortKey key rango).take n)).length = min n 49 ∧
    (pySorted ((pySortKey key rango).take n)).Nodup ∧
    ∀ x ∈ pySorted ((pySortKey key rango).take n), 1 ≤ x ∧ x ≤ 49 := by
  have hnd : ((pySortKey key rango).take n).Nodup :=
    (List.take_sublist _ _).nodup (pySortKey_nodup key rango_nodup)
  refine ⟨?_, pySorted_nodup hnd, ?_⟩
  · rw [pySorted_length, List.length_take, pySortKey_length, rango_length]
  · intro x hx
    have hx2 : x ∈ (pySortKey key rango).take n := pySorted_mem.1 hx
    have hx3 : x ∈ pySortKey key rango :=
      List.Sublist.mem hx2 (List.take_sublist _ _)
    exact mem_rango.1 ((pySortKey_mem key).1 hx3)

/-- Specialization of `topN_spec`: the top-6 idiom always yields a valid
selection. -/
theorem topN_valid {K : Type} [LinearOrder K] (key : Int → K) :
    validSel (pySorted ((pySortKey key rango).take 6)) := by
  obtain ⟨h1, h2, h3⟩ := topN_spec key 6
  exact ⟨by omega, h2, h3⟩

/-! ### The `random.sample` model -/

theorem sampleWR_nodup_sub (rb : Nat → Nat) :
    ∀ (k : Nat) (pool : List Int) (c : Nat), pool.Nodup →
      (sampleWR rb k pool c).Nodup ∧ ∀ y ∈ sampleWR rb k pool c, y ∈ pool := by
  intro k
  induction k with
  | zero => intro pool c _; simp [sampleWR]
  | succ k ih =>
    intro pool c hnd
    match pool with
    | [] => simp [sampleWR]
    | x :: xs =>
      rw [sampleWR]
      set pool := x :: xs with hpool
      set j := rb c % pool.length with hj
      have hjlt : j < pool.length := Nat.mod_lt _ (by simp [hpool])
      have hget : pool.getD j 0 = pool.get ⟨j, hjlt⟩ := List.getD_eq_getElem pool 0 hjlt
      have herase_nd : (pool.eraseIdx j).Nodup := (List.eraseIdx_sublist pool j).nodup hnd
      obtain ⟨ih1, ih2⟩ := ih (pool.eraseIdx j) (c + 1) herase_nd
      have herase : pool.erase (pool.get ⟨j, hjlt⟩) = pool.eraseIdx j := by
        have := List.Nodup.erase_getElem hnd j hjlt
        simpa using this
      have hnotmem : pool.get ⟨j, hjlt⟩ ∉ pool.eraseIdx j := by
        rw [← herase]
        exact List.Nodup.not_mem_erase hnd
      constructor
      · rw [hget]
        refine List.nodup_cons.2 ⟨?_, ih1⟩
        intro hmem
        exact hnotmem (ih2 _ hmem)
      · intro y hy
        rw [hget] at hy
        rcases List.mem_cons.1 hy with rfl | hy
        · exact List.get_mem pool j hjlt
        · exact List.Sublist.mem (ih2 _ hy) (List.eraseIdx_sublist pool j)

theorem sampleWR_length (rb : Nat → Nat) :
    ∀ (k : Nat) (pool : List Int) (c : Nat),
      (sampleWR rb k pool c).length = min k pool.length := by
  intro k
  induction k with
  | zero => intro pool c; simp [sampleWR]
  | succ k ih =>
    intro pool c
    match pool with
    | [] => simp [sampleWR]
    | x :: xs =>
      rw [sampleWR]
      simp only [List.length_cons, ih, List.length_eraseIdx]
      rw [if_pos (Nat.mod_lt _ (Nat.succ_pos xs.length))]
      omega

/-- `metodo_aleatorio` always returns a valid selection. -/
theorem metodo_aleatorio_valid (rb : Nat → Nat) (hist : List Draw) :
    validSel (metodo_aleatorio rb hist) := by
  obtain ⟨hnd, hsub⟩ := sampleWR_nodup_sub rb 6 rango 0 rango_nodup
  refine ⟨?_, pySorted_nodup hnd, ?_⟩
  · rw [metodo_aleatorio, pySorted_length, sampleWR_length, rango_length]
    omega
  · intro x hx
    exact mem_rango.1 (hsub x (pySorted_mem.1 hx))

/-! ### Facts about the `fillTo` selection-building loop -/

theorem fillTo_nil (limit : Nat) (sel : List Int) : fillTo limit sel [] = sel := rfl

theorem fillTo_cons (limit : Nat) (sel : List Int) (x : Int) (xs : List Int) :
    fillTo limit sel (x :: xs) =
      fillTo limit (if sel.length < limit ∧ x ∉ sel then sel ++ [x] else sel) xs := by
  simp [fillTo]

theorem fillTo_mem_of_mem (limit : Nat) :
    ∀ (xs sel : List Int) (y : Int), y ∈ sel → y ∈ fillTo limit sel xs := by
  intro xs
  induction xs with
  | nil => intro sel y hy; simpa [fillTo_nil] using hy
  | cons x rest ih =>
    intro sel y hy
    rw [fillTo_cons]
    split
    · exact ih _ _ (List.mem_append_left _ hy)
    · exact ih _ _ hy

theorem fillTo_length_mono (limit : Nat) :
    ∀ (xs sel : List Int), sel.length ≤ (fillTo limit sel xs).length := by
  intro xs
  induction xs with
  | nil => intro sel; simp [fillTo_nil]
  | cons x rest ih =>
    intro sel
    rw [fillTo_cons]
    split
    · calc sel.length ≤ (sel ++ [x]).length := by simp
        _ ≤ _ := ih _
    · exact ih _

theorem fillTo_nodup_mem (limit : Nat) :
    ∀ (xs sel : List Int), sel.Nodup →
      (fillTo limit sel xs).Nodup ∧
      ∀ y ∈ fillTo limit sel xs, y ∈ sel ∨ y ∈ xs := by
  intro xs
  induction xs with
  | nil => intro sel h; exact ⟨h, fun y hy => Or.inl hy⟩
  | cons x rest ih =>
    intro sel hnd
    rw [fillTo_cons]
    split
    case isTrue hc =>
      obtain ⟨ih1, ih2⟩ := ih (sel ++ [x])
        (by
          have hx : x ∉ sel := hc.2
          simp [List.nodup_append, hnd, hx])
      refine ⟨ih1, ?_⟩
      intro y hy
      rcases ih2 y hy with hmem | hmem
      · rcases List.mem_append.1 hmem with h | h
        · exact Or.inl h
        · simp only [List.mem_singleton] at h
          exact Or.inr (by simp [h])
      · exact Or.inr (by simp [hmem])
    case isFalse =>
      obtain ⟨ih1, ih2⟩ := ih sel hnd
      refine ⟨ih1, ?_⟩
      intro y hy
      rcases ih2 y hy with hmem | hmem
      · exact Or.inl hmem
      · exact Or.inr (by simp [hmem])

theorem fillTo_length_le (limit : Nat) :
    ∀ (xs sel : List Int), sel.length ≤ limit →
      (fillTo limit sel xs).length ≤ limit := by
  intro xs
  induction xs with
  | nil => intro sel h; simpa [fillTo_nil] using h
  | cons x rest ih =>
    intro sel h
    rw [fillTo_cons]
    split
    case isTrue hc => exact ih _ (by have := hc.1; simp; omega)
    case isFalse => exact ih _ h

theorem fillTo_all_mem_of_short (limit : Nat) :
    ∀ (xs sel : List Int), (fillTo limit sel xs).length < limit →
      ∀ x ∈ xs, x ∈ fillTo limit sel xs := by
  intro xs
  induction xs with
  | nil => intro sel _ x hx; simp at hx
  | cons x rest ih =>
    intro sel hshort y hy
    rw [fillTo_cons] at hshort ⊢
    by_cases hP : sel.length < limit ∧ x ∉ sel
    · rw [if_pos hP] at hshort ⊢
      rcases List.mem_cons.1 hy with rfl | hy
      · exact fillTo_mem_of_mem _ _ _ _ (by simp)
      · exact ih _ hshort _ hy
    · rw [if_neg hP] at hshort ⊢
      rcases List.mem_cons.1 hy with rfl | hy
      · rw [not_and_or] at hP
        rcases hP with hP | hP
        · exfalso
          have := fillTo_length_mono limit rest sel
          omega
        · rw [not_not] at hP
          exact fillTo_mem_of_mem _ _ _ _ hP
      · exact ih _ hshort _ hy

/-- When the final pass runs over a duplicate-free list of at least
`limit` elements, the loop always tops the selection up to exactly
`limit` elements. -/
theorem fillTo_length_eq (limit : Nat) (xs sel : List Int)
    (hsel : sel.length ≤ limit) (hxs_nd : xs.Nodup) (hxs_len : limit ≤ xs.length) :
    (fillTo limit sel xs).length = limit := by
  have hle := fillTo_length_le limit xs sel hsel
  rcases Nat.lt_or_ge (fillTo limit sel xs).length limit with hlt | hge
  · exfalso
    have hsub : xs ⊆ fillTo limit sel xs := fun x hx =>
      fillTo_all_mem_of_short limit xs sel hlt x hx
    have := (hxs_nd.subperm hsub).length_le
    omega
  · omega

/-! ### Validity of the selector outputs -/

theorem validSel_pySorted {l : List Int} (h : validSel l) : validSel (pySorted l) :=
  ⟨by rw [pySorted_length]; exact h.1, pySorted_nodup h.2.1,
   fun x hx => h.2.2 x (pySorted_mem.1 hx)⟩

theorem okList_topN {K : Type} [LinearOrder K] (key : Int → K) (n : Nat) :
    okList (pySorted ((pySortKey key rango).take n)) :=
  ⟨(topN_spec key n).2.1, (topN_spec key n).2.2⟩

theorem length_topN {K : Type} [LinearOrder K] (key : Int → K) (n : Nat) :
    (pySorted ((pySortKey key rango).take n)).length = min n 49 :=
  (topN_spec key n).1

/-- The unsorted variant: `sorted(range(1,50), key=...)[:6]` is already a
valid selection. -/
theorem take6_sortKey_valid {K : Type} [LinearOrder K] (key : Int → K) :
    validSel ((pySortKey key rango).take 6) := by
  have hnd : ((pySortKey key rango).take 6).Nodup :=
    (List.take_sublist _ _).nodup (pySortKey_nodup key rango_nodup)
  refine ⟨?_, hnd, ?_⟩
  · rw [List.length_take, pySortKey_length, rango_length]
    omega
  · intro x hx
    have hx3 : x ∈ pySortKey key rango :=
      List.Sublist.mem hx (List.take_sublist _ _)
    exact mem_rango.1 ((pySortKey_mem key).1 hx3)

theorem pyMax_cons (x : Int) (xs : List Int) : pyMax (x :: xs) = xs.foldl max x := by
  rw [pyMax]
  simp [List.headI, List.foldl_cons, max_self]

theorem pyMin_cons (x : Int) (xs : List Int) : pyMin (x :: xs) = xs.foldl min x := by
  rw [pyMin]
  simp [List.headI, List.foldl_cons, min_self]

theorem foldl_max_mem : ∀ (xs : List Int) (a : Int),
    xs.foldl max a = a ∨ xs.foldl max a ∈ xs := by
  intro xs
  induction xs with
  | nil => intro a; exact Or.inl rfl
  | cons y ys ih =>
    intro a
    rw [List.foldl_cons]
    rcases ih (max a y) with h | h
    · rcases max_choice a y with hm | hm
      · exact Or.inl (h.trans hm)
      · exact Or.inr (by rw [h, hm]; exact List.mem_cons_self _ _)
    · exact Or.inr (List.mem_cons_of_mem _ h)

theorem foldl_min_mem : ∀ (xs : List Int) (a : Int),
    xs.foldl min a = a ∨ xs.foldl min a ∈ xs := by
  intro xs
  induction xs with
  | nil => intro a; exact Or.inl rfl
  | cons y ys ih =>
    intro a
    rw [List.foldl_cons]
    rcases ih (min a y) with h | h
    · rcases min_choice a y with hm | hm
      · exact Or.inl (h.trans hm)
      · exact Or.inr (by rw [h, hm]; exact List.mem_cons_self _ _)
    · exact Or.inr (List.mem_cons_of_mem _ h)

theorem le_foldl_max : ∀ (xs : List Int) (a : Int),
    a ≤ xs.foldl max a ∧ ∀ y ∈ xs, y ≤ xs.foldl max a := by
  intro xs
  induction xs with
  | nil => intro a; exact ⟨le_refl _, by simp⟩
  | cons y ys ih =>
    intro a
    rw [List.foldl_cons]
    obtain ⟨h1, h2⟩ := ih (max a y)
    refine ⟨le_trans (le_max_left _ _) h1, ?_⟩
    intro z hz
    rcases List.mem_cons.1 hz with rfl | hz
    · exact le_trans (le_max_right _ _) h1
    · exact h2 z hz

theorem foldl_min_le : ∀ (xs : List Int) (a : Int),
    xs.foldl min a ≤ a ∧ ∀ y ∈ xs, xs.foldl min a ≤ y := by
  intro xs
  induction xs with
  | nil => intro a; exact ⟨le_refl _, by simp⟩
  | cons y ys ih =>
    intro a
    rw [List.foldl_cons]
    obtain ⟨h1, h2⟩ := ih (min a y)
    refine ⟨le_trans h1 (min_le_left _ _), ?_⟩
    intro z hz
    rcases List.mem_cons.1 hz with rfl | hz
    · exact le_trans h1 (min_le_right _ _)
    · exact h2 z hz

theorem pyMax_mem {l : List Int} (h : l ≠ []) : pyMax l ∈ l := by
  match l with
  | x :: xs =>
    rw [pyMax_cons]
    rcases foldl_max_mem xs x with h1 | h1
    · rw [h1]; exact List.mem_cons_self _ _
    · exact List.mem_cons_of_mem _ h1

theorem pyMin_mem {l : List Int} (h : l ≠ []) : pyMin l ∈ l := by
  match l with
  | x :: xs =>
    rw [pyMin_cons]
    rcases foldl_min_mem xs x with h1 | h1
    · rw [h1]; exact List.mem_cons_self _ _
    · exact List.mem_cons_of_mem _ h1

theorem le_pyMax {l : List Int} {y : Int} (hy : y ∈ l) : y ≤ pyMax l := by
  match l with
  | x :: xs =>
    rw [pyMax_cons]
    rcases List.mem_cons.1 hy with rfl | hy2
    · exact (le_foldl_max xs y).1
    · exact (le_foldl_max xs x).2 y hy2

theorem pyMin_le {l : List Int} {y : Int} (hy : y ∈ l) : pyMin l ≤ y := by
  match l with
  | x :: xs =>
    rw [pyMin_cons]
    rcases List.mem_cons.1 hy with rfl | hy2
    · exact (foldl_min_le xs y).1
    · exact (foldl_min_le xs x).2 y hy2

/-- Swapping one member for a fresh in-range number keeps a selection
valid. -/
theorem validSel_swap {combo : List Int} (h : validSel combo) {peor c : Int}
    (hpeor : peor ∈ combo) (hc1 : 1 ≤ c) (hc2 : c ≤ 49) (hcnot : c ∉ combo) :
    validSel (pySorted (combo.erase peor ++ [c])) := by
  obtain ⟨hlen, hnd, hbound⟩ := h
  apply validSel_pySorted
  refine ⟨?_, ?_, ?_⟩
  · simp [List.length_append, List.length_erase_of_mem hpeor, hlen]
  · rw [List.nodup_append]
    refine ⟨hnd.erase peor, List.nodup_singleton c, ?_⟩
    intro a ha hmem
    simp only [List.mem_singleton] at hmem
    subst hmem
    exact hcnot (List.erase_subset _ _ ha)
  · intro x hx
    rcases List.mem_append.1 hx with hx | hx
    · exact hbound x (List.erase_subset _ _ hx)
    · simp only [List.mem_singleton] at hx
      subst hx
      exact ⟨hc1, hc2⟩

/-- `refinar_combinacion` preserves validity of the selection. -/
theorem refinar_valid (combo : List Int) (hist : List Draw) (h : validSel combo) :
    validSel (refinar_combinacion combo hist) := by
  have hne : combo ≠ [] := by
    intro hc
    rw [hc] at h
    exact absurd h.1 (by simp)
  simp only [refinar_combinacion]
  split
  · exact validSel_pySorted h
  · split
    · exact validSel_pySorted h
    · split
      · split
        next hcand => exact validSel_pySorted h
        next c rest hcand =>
          have hcmem : c ∈ rango.filter (fun x => decide (x ∉ combo ∧ x < pyMax combo)) := by
            rw [← pySortKey_mem (fun x => -(frecuencia hist x : Int)), hcand]
            exact List.mem_cons_self _ _
          obtain ⟨hcr, hcp⟩ := List.mem_filter.1 hcmem
          simp only [decide_eq_true_eq] at hcp
          exact validSel_swap h (pyMax_mem hne) (mem_rango.1 hcr).1 (mem_rango.1 hcr).2
            hcp.1
      · split
        next hcand => exact validSel_pySorted h
        next c rest hcand =>
          have hcmem : c ∈ rango.filter (fun x => decide (x ∉ combo ∧ pyMin combo < x)) := by
            rw [← pySortKey_mem (fun x => -(frecuencia hist x : Int)), hcand]
            exact List.mem_cons_self _ _
          obtain ⟨hcr, hcp⟩ := List.mem_filter.1 hcmem
          simp only [decide_eq_true_eq] at hcp
          exact validSel_swap h (pyMin_mem hne) (mem_rango.1 hcr).1 (mem_rango.1 hcr).2
            hcp.1

theorem sortKey_rango_ok {K : Type} [LinearOrder K] (key : Int → K) :
    okList (pySortKey key rango) ∧ (pySortKey key rango).length = 49 :=
  ⟨⟨pySortKey_nodup key rango_nodup,
    fun x hx => mem_rango.1 ((pySortKey_mem key).1 hx)⟩,
   by rw [pySortKey_length, rango_length]⟩

/-- Taking the first six of a duplicate-free in-range list of at least six
elements (then sorting) yields a valid selection. -/
theorem validSel_take6 {l : List Int} (hnd : l.Nodup)
    (hb : ∀ x ∈ l, 1 ≤ x ∧ x ≤ 49) (hlen : 6 ≤ l.length) :
    validSel (pySorted (l.take 6)) := by
  apply validSel_pySorted
  refine ⟨?_, (List.take_sublist _ _).nodup hnd, ?_⟩
  · rw [List.length_take]
    omega
  · intro x hx
    exact hb x (List.Sublist.mem hx (List.take_sublist _ _))

theorem valid_frecuencias (rb : Nat → Nat) (hist : List Draw) :
    validSel (metodo_frecuencias rb hist 6) :=
  topN_valid _

theorem valid_frios (rb : Nat → Nat) (hist : List Draw) :
    validSel (metodo_frios rb hist 6) :=
  topN_valid _

theorem valid_debidos (rb : Nat → Nat) (hist : List Draw) :
    validSel (metodo_debidos rb hist 6) :=
  topN_valid _

theorem valid_calientes (rb : Nat → Nat) (hist : List Draw) (ventana : Nat) :
    validSel (metodo_calientes rb hist ventana 6) :=
  topN_valid _

theorem valid_pares (rb : Nat → Nat) (hist : List Draw) :
    validSel (metodo_pares_frecuentes rb hist 6) :=
  topN_valid _

theorem valid_mixto (rb : Nat → Nat) (hist : List Draw) (ventana : Nat) :
    validSel (metodo_mixto_15_70_15 rb hist ventana 6) := by
  rw [metodo_mixto_15_70_15]
  split
  · exact metodo_aleatorio_valid rb hist
  · exact topN_valid _

/-- The common `okList` facts of the `take n` top lists of the library
(used as vote/fill inputs). -/
theorem topN_ok {K : Type} [LinearOrder K] (key : Int → K) (n : Nat) :
    okList (pySorted ((pySortKey key rango).take n)) :=
  ⟨(topN_spec key n).2.1, (topN_spec key n).2.2⟩

theorem ok_frecuencias (rb : Nat → Nat) (hist : List Draw) (n : Nat) :
    okList (metodo_frecuencias rb hist n) ∧
      (metodo_frecuencias rb hist n).length = min n 49 :=
  ⟨topN_ok _ n, length_topN _ n⟩

theorem ok_calientes (rb : Nat → Nat) (hist : List Draw) (ventana n : Nat) :
    okList (metodo_calientes rb hist ventana n) ∧
      (metodo_calientes rb hist ventana n).length = min n 49 :=
  ⟨topN_ok _ n, length_topN _ n⟩

theorem ok_aleatorio (rb : Nat → Nat) (hist : List Draw) :
    okList (metodo_aleatorio rb hist) :=
  ⟨(metodo_aleatorio_valid rb hist).2.1, (metodo_aleatorio_valid rb hist).2.2⟩

theorem ok_mixto (rb : Nat → Nat) (hist : List Draw) (ventana n : Nat) :
    okList (metodo_mixto_15_70_15 rb hist ventana n) := by
  rw [metodo_mixto_15_70_15]
  split
  · exact ok_aleatorio rb hist
  · exact topN_ok _ n

/-- Generic validity of the three-stage fill loop (3 + 2 + 1 pattern). -/
theorem fill3_valid {a b c' : List Int} (l1 l2 : Nat) (ha : okList a) (hb : okList b)
    (hc : okList c') (h12 : l1 ≤ l2) (h2 : l2 ≤ 6) (hclen : 6 ≤ c'.length) :
    validSel (pySorted (fillTo 6 (fillTo l2 (fillTo l1 [] a) b) c')) := by
  obtain ⟨s3nd, s3mem⟩ := fillTo_nodup_mem l1 a [] List.nodup_nil
  have s3len : (fillTo l1 [] a).length ≤ l1 := fillTo_length_le l1 a [] (by simp)
  obtain ⟨s5nd, s5mem⟩ := fillTo_nodup_mem l2 b (fillTo l1 [] a) s3nd
  have s5len : (fillTo l2 (fillTo l1 [] a) b).length ≤ l2 :=
    fillTo_length_le l2 b _ (by omega)
  obtain ⟨s6nd, s6mem⟩ := fillTo_nodup_mem 6 c' _ s5nd
  have s6len : (fillTo 6 (fillTo l2 (fillTo l1 [] a) b) c').length = 6 :=
    fillTo_length_eq 6 c' _ (by omega) hc.1 hclen
  apply validSel_pySorted
  refine ⟨s6len, s6nd, ?_⟩
  intro x hx
  rcases s6mem x hx with hx2 | hx2
  · rcases s5mem x hx2 with hx3 | hx3
    · rcases s3mem x hx3 with hx4 | hx4
      · simp at hx4
      · exact ha.2 x hx4
    · exact hb.2 x hx3
  · exact hc.2 x hx2

/-- Generic validity of the two-stage fill loop (4 + 2 pattern). -/
theorem fill2_valid {a b : List Int} (l1 : Nat) (ha : okList a) (hb : okList b)
    (h1 : l1 ≤ 6) (hblen : 6 ≤ b.length) :
    validSel (pySorted (fillTo 6 (fillTo l1 [] a) b)) := by
  obtain ⟨s4nd, s4mem⟩ := fillTo_nodup_mem l1 a [] List.nodup_nil
  have s4len : (fillTo l1 [] a).length ≤ l1 := fillTo_length_le l1 a [] (by simp)
  obtain ⟨s6nd, s6mem⟩ := fillTo_nodup_mem 6 b _ s4nd
  have s6len : (fillTo 6 (fillTo l1 [] a) b).length = 6 :=
    fillTo_length_eq 6 b _ (by omega) hb.1 hblen
  apply validSel_pySorted
  refine ⟨s6len, s6nd, ?_⟩
  intro x hx
  rcases s6mem x hx with hx2 | hx2
  · rcases s4mem x hx2 with hx3 | hx3
    · simp at hx3
    · exact ha.2 x hx3
  · exact hb.2 x hx2

theorem valid_rachas_mix (rb : Nat → Nat) (hist : List Draw) (ventana n : Nat) :
    validSel (metodo_rachas_mix rb hist ventana n) := by
  rw [metodo_rachas_mix]
  split
  · exact metodo_aleatorio_valid rb hist
  · rw [rachasMixCore]
    exact fill3_valid 3 5 (sortKey_rango_ok _).1 (sortKey_rango_ok _).1
      (sortKey_rango_ok _).1 (by omega) (by omega)
      (by rw [(sortKey_rango_ok _).2]; omega)

theorem valid_ensemble (rb : Nat → Nat) (hist : List Draw) :
    validSel (metodo_ensemble rb hist 6) := by
  rw [metodo_ensemble]
  split
  · exact metodo_aleatorio_valid rb hist
  · exact topN_valid _

/-- Generic validity of the threshold-then-pad construction of
`metodo_alta_confianza`. -/
theorem selecPad_valid {K : Type} [LinearOrder K] (key : Int → K) (p : Int → Bool) :
    validSel (pySorted
      ((if ((pySortKey key rango).filter p).length < 6 then
          (pySortKey key rango).filter p ++
            (pySortKey key rango).filter
              (fun x => x ∉ (pySortKey key rango).filter p)
        else (pySortKey key rango).filter p).take 6)) := by
  have hcnd : (pySortKey key rango).Nodup := (sortKey_rango_ok key).1.1
  have hcb : ∀ x ∈ pySortKey key rango, 1 ≤ x ∧ x ≤ 49 := (sortKey_rango_ok key).1.2
  have hclen : (pySortKey key rango).length = 49 := (sortKey_rango_ok key).2
  split
  next hshort =>
    apply validSel_take6
    · rw [List.nodup_append]
      refine ⟨hcnd.filter _, hcnd.filter _, ?_⟩
      intro y hy hy2
      obtain ⟨-, hp⟩ := List.mem_filter.1 hy2
      simp only [decide_eq_true_eq] at hp
      exact hp hy
    · intro x hx
      rcases List.mem_append.1 hx with hx | hx
      · exact hcb x (List.mem_of_mem_filter hx)
      · exact hcb x (List.mem_of_mem_filter hx)
    · have hsub : pySortKey key rango ⊆
          (pySortKey key rango).filter p ++
            (pySortKey key rango).filter
              (fun x => x ∉ (pySortKey key rango).filter p) := by
        intro x hx
        by_cases hmem : x ∈ (pySortKey key rango).filter p
        · exact List.mem_append_left _ hmem
        · refine List.mem_append_right _ (List.mem_filter.2 ⟨hx, ?_⟩)
          have himp : x ∈ pySortKey key rango → p x = false := by simpa using hmem
          simp [himp hx, hmem]
      have := (hcnd.subperm hsub).length_le
      omega
  next hlong =>
    apply validSel_take6 (hcnd.filter _)
    · intro x hx
      exact hcb x (List.mem_of_mem_filter hx)
    · omega

theorem valid_alta_confianza (rb : Nat → Nat) (hist : List Draw) (umbral : Nat) :
    validSel (metodo_alta_confianza rb hist 6 umbral) := by
  rw [metodo_alta_confianza]
  split
  · exact metodo_aleatorio_valid rb hist
  · exact selecPad_valid _ _

/-- The fill-chain followed by `[:n]` (take 6) still yields a valid
selection. -/
theorem fill3_take_valid {a b c' : List Int} (l1 l2 : Nat) (ha : okList a)
    (hb : okList b) (hc : okList c') (h12 : l1 ≤ l2) (h2 : l2 ≤ 6)
    (hclen : 6 ≤ c'.length) :
    validSel (pySorted ((fillTo 6 (fillTo l2 (fillTo l1 [] a) b) c').take 6)) := by
  obtain ⟨s3nd, s3mem⟩ := fillTo_nodup_mem l1 a [] List.nodup_nil
  have s3len : (fillTo l1 [] a).length ≤ l1 := fillTo_length_le l1 a [] (by simp)
  obtain ⟨s5nd, s5mem⟩ := fillTo_nodup_mem l2 b (fillTo l1 [] a) s3nd
  have s5len : (fillTo l2 (fillTo l1 [] a) b).length ≤ l2 :=
    fillTo_length_le l2 b _ (by omega)
  obtain ⟨s6nd, s6mem⟩ := fillTo_nodup_mem 6 c' _ s5nd
  have s6len : (fillTo 6 (fillTo l2 (fillTo l1 [] a) b) c').length = 6 :=
    fillTo_length_eq 6 c' _ (by omega) hc.1 hclen
  apply validSel_take6 s6nd _ (by omega)
  intro x hx
  rcases s6mem x hx with hx2 | hx2
  · rcases s5mem x hx2 with hx3 | hx3
    · rcases s3mem x hx3 with hx4 | hx4
      · simp at hx4
      · exact ha.2 x hx4
    · exact hb.2 x hx3
  · exact hc.2 x hx2

theorem fill2_take_valid {a b : List Int} (l1 : Nat) (ha : okList a) (hb : okList b)
    (h1 : l1 ≤ 6) (hblen : 6 ≤ b.length) :
    validSel (pySorted ((fillTo 6 (fillTo l1 [] a) b).take 6)) := by
  obtain ⟨s4nd, s4mem⟩ := fillTo_nodup_mem l1 a [] List.nodup_nil
  have s4len : (fillTo l1 [] a).length ≤ l1 := fillTo_length_le l1 a [] (by simp)
  obtain ⟨s6nd, s6mem⟩ := fillTo_nodup_mem 6 b _ s4nd
  have s6len : (fillTo 6 (fillTo l1 [] a) b).length = 6 :=
    fillTo_length_eq 6 b _ (by omega) hb.1 hblen
  apply validSel_take6 s6nd _ (by omega)
  intro x hx
  rcases s6mem x hx with hx2 | hx2
  · rcases s4mem x hx2 with hx3 | hx3
    · simp at hx3
    · exact ha.2 x hx3
  · exact hb.2 x hx2

theorem valid_rachas_v2 (rb : Nat → Nat) (hist : List Draw) :
    validSel (metodo_rachas_mix_v2 rb hist 6) := by
  rw [metodo_rachas_mix_v2]
  split
  · exact metodo_aleatorio_valid rb hist
  · rw [rachasMixV2Core]
    refine fill3_take_valid 3 5 (ok_calientes rb hist 12 15).1 (ok_mixto rb hist 12 15)
      (ok_frecuencias rb hist 15).1 (by omega) (by omega) ?_
    rw [(ok_frecuencias rb hist 15).2]
    omega

theorem valid_ensemble_v2 (rb : Nat → Nat) (hist : List Draw) :
    validSel (metodo_ensemble_v2 rb hist 6) := by
  rw [metodo_ensemble_v2]
  split
  · exact metodo_aleatorio_valid rb hist
  · exact topN_valid _

theorem valid_ac_v2 (rb : Nat → Nat) (hist : List Draw) :
    validSel (metodo_alta_confianza_v2 rb hist 6) := by
  rw [metodo_alta_confianza_v2]
  split
  · exact metodo_aleatorio_valid rb hist
  · exact topN_valid _

theorem valid_rachas_v3 (rb : Nat → Nat) (hist : List Draw) :
    validSel (metodo_rachas_mix_v3 rb hist 6) := by
  rw [metodo_rachas_mix_v3]
  split
  · exact valid_rachas_v2 rb hist
  · exact refinar_valid _ _ (take6_sortKey_valid _)

theorem valid_ensemble_v3 (rb : Nat → Nat) (hist : List Draw) :
    validSel (metodo_ensemble_v3 rb hist 6) := by
  rw [metodo_ensemble_v3]
  split
  · exact valid_ensemble_v2 rb hist
  · exact refinar_valid _ _ (take6_sortKey_valid _)

theorem valid_ac_v3 (rb : Nat → Nat) (hist : List Draw) :
    validSel (metodo_alta_confianza_v3 rb hist 6) := by
  rw [metodo_alta_confianza_v3]
  split
  · exact valid_ac_v2 rb hist
  · exact refinar_valid _ _ (take6_sortKey_valid _)

theorem valid_rachas_mv_sinref (rb : Nat → Nat) (hist : List Draw) :
    validSel (metodo_rachas_mv_sinref rb hist 6) := by
  rw [metodo_rachas_mv_sinref]
  split
  · exact valid_rachas_v2 rb hist
  · exact topN_valid _

theorem valid_ventana5 (rb : Nat → Nat) (hist : List Draw) :
    validSel (metodo_rachas_ventana5 rb hist 6) := by
  rw [metodo_rachas_ventana5]
  split
  · exact metodo_aleatorio_valid rb hist
  · refine fill2_take_valid 4 (ok_calientes rb hist 5 15).1
      (ok_frecuencias rb hist 15).1 (by omega) ?_
    rw [(ok_frecuencias rb hist 15).2]
    omega

theorem valid_ensemble_mv_sinref (rb : Nat → Nat) (hist : List Draw) :
    validSel (metodo_ensemble_mv_sinref rb hist 6) := by
  rw [metodo_ensemble_mv_sinref]
  split
  · exact valid_ensemble_v2 rb hist
  · exact topN_valid _

theorem valid_ac_mv_sinref (rb : Nat → Nat) (hist : List Draw) :
    validSel (metodo_ac_mv_sinref rb hist 6) := by
  rw [metodo_ac_mv_sinref]
  split
  · exact valid_ac_v2 rb hist
  · exact topN_valid _

/-- C2: For every selector in the selector library and every history
prefix (including the empty prefix), the returned Selection is a list of
exactly 6 distinct integers, all within `[1,49]`.  The selectors are taken
at the argument values the library calls them with; the randomness oracle
`rb` is universally quantified, covering the random fallback paths. -/
theorem selectors_return_valid_selections (rb : Nat → Nat) (hist : List Draw) :
    validSel (metodo_aleatorio rb hist) ∧
    validSel (metodo_frecuencias rb hist 6) ∧
    validSel (metodo_frios rb hist 6) ∧
    validSel (metodo_debidos rb hist 6) ∧
    validSel (metodo_calientes rb hist 12 6) ∧
    validSel (metodo_mixto_15_70_15 rb hist 12 6) ∧
    validSel (metodo_pares_frecuentes rb hist 6) ∧
    validSel (metodo_rachas_mix rb hist 12 6) ∧
    validSel (metodo_ensemble rb hist 6) ∧
    validSel (metodo_alta_confianza rb hist 6 3) ∧
    validSel (metodo_rachas_mix_v2 rb hist 6) ∧
    validSel (metodo_ensemble_v2 rb hist 6) ∧
    validSel (metodo_alta_confianza_v2 rb hist 6) ∧
    validSel (metodo_rachas_mix_v3 rb hist 6) ∧
    validSel (metodo_ensemble_v3 rb hist 6) ∧
    validSel (metodo_alta_confianza_v3 rb hist 6) ∧
    validSel (metodo_rachas_mv_sinref rb hist 6) ∧
    validSel (metodo_rachas_ventana5 rb hist 6) ∧
    validSel (metodo_ensemble_mv_sinref rb hist 6) ∧
    validSel (metodo_ac_mv_sinref rb hist 6) :=
  ⟨metodo_aleatorio_valid rb hist, valid_frecuencias rb hist, valid_frios rb hist,
   valid_debidos rb hist, valid_calientes rb hist 12, valid_mixto rb hist 12,
   valid_pares rb hist, valid_rachas_mix rb hist 12 6, valid_ensemble rb hist,
   valid_alta_confianza rb hist 3, valid_rachas_v2 rb hist, valid_ensemble_v2 rb hist,
   valid_ac_v2 rb hist, valid_rachas_v3 rb hist, valid_ensemble_v3 rb hist,
   valid_ac_v3 rb hist, valid_rachas_mv_sinref rb hist, valid_ventana5 rb hist,
   valid_ensemble_mv_sinref rb hist, valid_ac_mv_sinref rb hist⟩

/-! ### Determinism of the non-random selectors -/

theorem mixto_eq_core (rb : Nat → Nat) (hist : List Draw) (v n : Nat)
    (h : ¬hist.length < 10) :
    metodo_mixto_15_70_15 rb hist v n = mixtoCore hist v n := by
  rw [metodo_mixto_15_70_15, if_neg h]

theorem rachas_eq_core (rb : Nat → Nat) (hist : List Draw) (v n : Nat)
    (h : ¬hist.length < v) :
    metodo_rachas_mix rb hist v n = rachasMixCore hist v := by
  rw [metodo_rachas_mix, if_neg h]

theorem frecuencias_det (rb rb' : Nat → Nat) (hist : List Draw) (n : Nat) :
    metodo_frecuencias rb hist n = metodo_frecuencias rb' hist n := rfl

theorem frios_det (rb rb' : Nat → Nat) (hist : List Draw) (n : Nat) :
    metodo_frios rb hist n = metodo_frios rb' hist n := rfl

theorem debidos_det (rb rb' : Nat → Nat) (hist : List Draw) (n : Nat) :
    metodo_debidos rb hist n = metodo_debidos rb' hist n := rfl

theorem calientes_det (rb rb' : Nat → Nat) (hist : List Draw) (v n : Nat) :
    metodo_calientes rb hist v n = metodo_calientes rb' hist v n := rfl

theorem pares_det (rb rb' : Nat → Nat) (hist : List Draw) (n : Nat) :
    metodo_pares_frecuentes rb hist n = metodo_pares_frecuentes rb' hist n := rfl

theorem mixto_det (rb rb' : Nat → Nat) (hist : List Draw) (v n : Nat)
    (h : 10 ≤ hist.length) :
    metodo_mixto_15_70_15 rb hist v n = metodo_mixto_15_70_15 rb' hist v n := by
  rw [mixto_eq_core rb hist v n (by omega), mixto_eq_core rb' hist v n (by omega)]

theorem rachas_det (rb rb' : Nat → Nat) (hist : List Draw) (n : Nat)
    (h : 12 ≤ hist.length) :
    metodo_rachas_mix rb hist 12 n = metodo_rachas_mix rb' hist 12 n := by
  rw [rachas_eq_core rb hist 12 n (by omega), rachas_eq_core rb' hist 12 n (by omega)]

theorem ensemble_det (rb rb' : Nat → Nat) (hist : List Draw) (n : Nat)
    (h : 12 ≤ hist.length) :
    metodo_ensemble rb hist n = metodo_ensemble rb' hist n := by
  rw [metodo_ensemble, metodo_ensemble, if_neg (by omega), if_neg (by omega)]
  simp only [ensembleCore, rachas_eq_core _ hist 12 15 (by omega),
    mixto_eq_core _ hist 12 15 (by omega), frecuencias_det rb rb',
    calientes_det rb rb', debidos_det rb rb']

theorem alta_confianza_det (rb rb' : Nat → Nat) (hist : List Draw) (n u : Nat)
    (h : 12 ≤ hist.length) :
    metodo_alta_confianza rb hist n u = metodo_alta_confianza rb' hist n u := by
  rw [metodo_alta_confianza, metodo_alta_confianza, if_neg (by omega), if_neg (by omega)]
  simp only [altaConfianzaCore, rachas_eq_core _ hist 12 6 (by omega),
    mixto_eq_core _ hist 12 12 (by omega), frecuencias_det rb rb',
    calientes_det rb rb', debidos_det rb rb']

theorem rachas_v2_det (rb rb' : Nat → Nat) (hist : List Draw) (n : Nat)
    (h : 10 ≤ hist.length) :
    metodo_rachas_mix_v2 rb hist n = metodo_rachas_mix_v2 rb' hist n := by
  rw [metodo_rachas_mix_v2, metodo_rachas_mix_v2, if_neg (by omega), if_neg (by omega)]
  simp only [rachasMixV2Core, mixto_eq_core _ hist 12 15 (by omega),
    calientes_det rb rb', frecuencias_det rb rb']

theorem ensemble_v2_det (rb rb' : Nat → Nat) (hist : List Draw) (n : Nat)
    (h : 10 ≤ hist.length) :
    metodo_ensemble_v2 rb hist n = metodo_ensemble_v2 rb' hist n := by
  rw [metodo_ensemble_v2, metodo_ensemble_v2, if_neg (by omega), if_neg (by omega)]
  simp only [ensembleV2Core, mixto_eq_core _ hist 12 15 (by omega),
    calientes_det rb rb', frecuencias_det rb rb']

theorem ac_v2_det (rb rb' : Nat → Nat) (hist : List Draw) (n : Nat)
    (h : 10 ≤ hist.length) :
    metodo_alta_confianza_v2 rb hist n = metodo_alta_confianza_v2 rb' hist n := by
  rw [metodo_alta_confianza_v2, metodo_alta_confianza_v2,
    if_neg (by omega), if_neg (by omega)]
  simp only [altaConfianzaV2Core, mixto_eq_core _ hist 12 12 (by omega),
    calientes_det rb rb', frecuencias_det rb rb']

theorem rachas_v3_det (rb rb' : Nat → Nat) (hist : List Draw) (n : Nat)
    (h : 12 ≤ hist.length) :
    metodo_rachas_mix_v3 rb hist n = metodo_rachas_mix_v3 rb' hist n := by
  rw [metodo_rachas_mix_v3, metodo_rachas_mix_v3]
  by_cases h30 : hist.length < 30
  · rw [if_pos h30, if_pos h30]
    exact rachas_v2_det rb rb' hist n (by omega)
  · rw [if_neg h30, if_neg h30]

theorem ensemble_v3_det (rb rb' : Nat → Nat) (hist : List Draw) (n : Nat)
    (h : 12 ≤ hist.length) :
    metodo_ensemble_v3 rb hist n = metodo_ensemble_v3 rb' hist n := by
  rw [metodo_ensemble_v3, metodo_ensemble_v3]
  by_cases h30 : hist.length < 30
  · rw [if_pos h30, if_pos h30]
    exact ensemble_v2_det rb rb' hist n (by omega)
  · rw [if_neg h30, if_neg h30]
    rfl

theorem ac_v3_det (rb rb' : Nat → Nat) (hist : List Draw) (n : Nat)
    (h : 12 ≤ hist.length) :
    metodo_alta_confianza_v3 rb hist n = metodo_alta_confianza_v3 rb' hist n := by
  rw [metodo_alta_confianza_v3, metodo_alta_confianza_v3]
  by_cases h30 : hist.length < 30
  · rw [if_pos h30, if_pos h30]
    exact ac_v2_det rb rb' hist n (by omega)
  · rw [if_neg h30, if_neg h30]
    rfl

theorem rachas_mv_sinref_det (rb rb' : Nat → Nat) (hist : List Draw) (n : Nat)
    (h : 12 ≤ hist.length) :
    metodo_rachas_mv_sinref rb hist n = metodo_rachas_mv_sinref rb' hist n := by
  rw [metodo_rachas_mv_sinref, metodo_rachas_mv_sinref]
  by_cases h30 : hist.length < 30
  · rw [if_pos h30, if_pos h30]
    exact rachas_v2_det rb rb' hist n (by omega)
  · rw [if_neg h30, if_neg h30]

theorem ventana5_det (rb rb' : Nat → Nat) (hist : List Draw) (n : Nat)
    (h : 10 ≤ hist.length) :
    metodo_rachas_ventana5 rb hist n = metodo_rachas_ventana5 rb' hist n := by
  rw [metodo_rachas_ventana5, metodo_rachas_ventana5,
    if_neg (by omega), if_neg (by omega)]
  rfl

theorem ensemble_mv_sinref_det (rb rb' : Nat → Nat) (hist : List Draw) (n : Nat)
    (h : 12 ≤ hist.length) :
    metodo_ensemble_mv_sinref rb hist n = metodo_ensemble_mv_sinref rb' hist n := by
  rw [metodo_ensemble_mv_sinref, metodo_ensemble_mv_sinref]
  by_cases h30 : hist.length < 30
  · rw [if_pos h30, if_pos h30]
    exact ensemble_v2_det rb rb' hist n (by omega)
  · rw [if_neg h30, if_neg h30]
    rfl

theorem ac_mv_sinref_det (rb rb' : Nat → Nat) (hist : List Draw) (n : Nat)
    (h : 12 ≤ hist.length) :
    metodo_ac_mv_sinref rb hist n = metodo_ac_mv_sinref rb' hist n := by
  rw [metodo_ac_mv_sinref, metodo_ac_mv_sinref]
  by_cases h30 : hist.length < 30
  · rw [if_pos h30, if_pos h30]
    exact ac_v2_det rb rb' hist n (by omega)
  · rw [if_neg h30, if_neg h30]
    rfl

/-- C3 (counterexample): the claim "every selector other than the explicit
Uniform Random baseline is deterministic given its history argument, for
every history" is false: on the empty history `metodo_mixto_15_70_15`
falls back to the random baseline, and two invocations drawing different
random values return different selections. -/
theorem mixto_nondeterministic_on_short_history :
    metodo_mixto_15_70_15 (fun _ => 0) [] 12 6 ≠
      metodo_mixto_15_70_15 (fun _ => 1) [] 12 6 := by
  decide

/-- C3 (amended): every selector other than the explicit Uniform Random
baseline is deterministic given its history argument, provided the history
is at least as long as the selector family's largest random-fallback
threshold (12 draws: 10 for the blend/ensemble/consensus/v2 guards, 12 for
`metodo_rachas_mix`; v3 selectors defer to those fallbacks below 30).
Below the thresholds, selectors inherit the random fallback and are
stochastic. -/
theorem selectors_deterministic_given_min_history (rb rb' : Nat → Nat)
    (hist : List Draw) (h : 12 ≤ hist.length) :
    metodo_frecuencias rb hist 6 = metodo_frecuencias rb' hist 6 ∧
    metodo_frios rb hist 6 = metodo_frios rb' hist 6 ∧
    metodo_debidos rb hist 6 = metodo_debidos rb' hist 6 ∧
    metodo_calientes rb hist 12 6 = metodo_calientes rb' hist 12 6 ∧
    metodo_mixto_15_70_15 rb hist 12 6 = metodo_mixto_15_70_15 rb' hist 12 6 ∧
    metodo_pares_frecuentes rb hist 6 = metodo_pares_frecuentes rb' hist 6 ∧
    metodo_rachas_mix rb hist 12 6 = metodo_rachas_mix rb' hist 12 6 ∧
    metodo_ensemble rb hist 6 = metodo_ensemble rb' hist 6 ∧
    metodo_alta_confianza rb hist 6 3 = metodo_alta_confianza rb' hist 6 3 ∧
    metodo_rachas_mix_v2 rb hist 6 = metodo_rachas_mix_v2 rb' hist 6 ∧
    metodo_ensemble_v2 rb hist 6 = metodo_ensemble_v2 rb' hist 6 ∧
    metodo_alta_confianza_v2 rb hist 6 = metodo_alta_confianza_v2 rb' hist 6 ∧
    metodo_rachas_mix_v3 rb hist 6 = metodo_rachas_mix_v3 rb' hist 6 ∧
    metodo_ensemble_v3 rb hist 6 = metodo_ensemble_v3 rb' hist 6 ∧
    metodo_alta_confianza_v3 rb hist 6 = metodo_alta_confianza_v3 rb' hist 6 ∧
    metodo_rachas_mv_sinref rb hist 6 = metodo_rachas_mv_sinref rb' hist 6 ∧
    metodo_rachas_ventana5 rb hist 6 = metodo_rachas_ventana5 rb' hist 6 ∧
    metodo_ensemble_mv_sinref rb hist 6 = metodo_ensemble_mv_sinref rb' hist 6 ∧
    metodo_ac_mv_sinref rb hist 6 = metodo_ac_mv_sinref rb' hist 6 :=
  ⟨frecuencias_det rb rb' hist 6, frios_det rb rb' hist 6, debidos_det rb rb' hist 6,
   calientes_det rb rb' hist 12 6, mixto_det rb rb' hist 12 6 (by omega),
   pares_det rb rb' hist 6, rachas_det rb rb' hist 6 h, ensemble_det rb rb' hist 6 h,
   alta_confianza_det rb rb' hist 6 3 h, rachas_v2_det rb rb' hist 6 (by omega),
   ensemble_v2_det rb rb' hist 6 (by omega), ac_v2_det rb rb' hist 6 (by omega),
   rachas_v3_det rb rb' hist 6 h, ensemble_v3_det rb rb' hist 6 h,
   ac_v3_det rb rb' hist 6 h, rachas_mv_sinref_det rb rb' hist 6 h,
   ventana5_det rb rb' hist 6 (by omega), ensemble_mv_sinref_det rb rb' hist 6 h,
   ac_mv_sinref_det rb rb' hist 6 h⟩

/-- Witness for `selectors_deterministic_given_min_history` at a concrete
12-draw history and two concrete oracles. -/
theorem selectors_deterministic_witness :
    12 ≤ (List.replicate 12 (Draw.mk "d" [1, 2, 3, 4, 5, 6] 0)).length ∧
    metodo_frecuencias (fun _ => 0) (List.replicate 12 (Draw.mk "d" [1, 2, 3, 4, 5, 6] 0)) 6 =
      metodo_frecuencias (fun _ => 1) (List.replicate 12 (Draw.mk "d" [1, 2, 3, 4, 5, 6] 0)) 6 :=
  ⟨by decide,
   (selectors_deterministic_given_min_history (fun _ => 0) (fun _ => 1)
     (List.replicate 12 (Draw.mk "d" [1, 2, 3, 4, 5, 6] 0)) (by decide)).1⟩

/-- C1: No look-ahead.  The prediction the backtest scores against step
`i` and the ticket portfolio the prize simulator scores against step `i`
are computed from the history prefix `sorteos[:i]` only: two histories
agreeing on their first `i` draws produce the same step-`i` prediction
(for the same randomness oracle) and the same step-`i` ticket portfolio. -/
theorem no_lookahead (metodo : Sel) (rbAt : Int → Nat → Nat → Nat)
    (estrategia : List Draw → List Boleto) (s1 s2 t1 t2 : List Draw) (i : Nat)
    (hs : s1.take i = s2.take i) (ht : t1.take i = t2.take i) :
    (∀ r, backtestPred metodo rbAt s1 (i : Int) r =
      backtestPred metodo rbAt s2 (i : Int) r) ∧
    simStepTickets estrategia t1 (i : Int) = simStepTickets estrategia t2 (i : Int) := by
  constructor
  · intro r
    rw [backtestPred, backtestPred, pySlice_coe, pySlice_coe, hs]
  · rw [simStepTickets, simStepTickets, pySlice_coe, pySlice_coe, ht]

/-- Witness for `no_lookahead` at two concrete histories agreeing on their
first draw. -/
theorem no_lookahead_witness :
    ([Draw.mk "a" [1, 2, 3, 4, 5, 6] 0]).take 1 =
      ([Draw.mk "a" [1, 2, 3, 4, 5, 6] 0, Draw.mk "b" [7, 8, 9, 10, 11, 12] 1]).take 1 ∧
    backtestPred (fun _ h => metodo_frecuencias (fun _ => 0) h 6) (fun _ _ _ => 0)
        [Draw.mk "a" [1, 2, 3, 4, 5, 6] 0] (1 : Nat) 0 =
      backtestPred (fun _ h => metodo_frecuencias (fun _ => 0) h 6) (fun _ _ _ => 0)
        [Draw.mk "a" [1, 2, 3, 4, 5, 6] 0, Draw.mk "b" [7, 8, 9, 10, 11, 12] 1]
        (1 : Nat) 0 :=
  ⟨by decide,
   (no_lookahead (fun _ h => metodo_frecuencias (fun _ => 0) h 6) (fun _ _ _ => 0)
     (fun _ => []) [Draw.mk "a" [1, 2, 3, 4, 5, 6] 0]
     [Draw.mk "a" [1, 2, 3, 4, 5, 6] 0, Draw.mk "b" [7, 8, 9, 10, 11, 12] 1]
     [] [] 1 (by decide) (by decide)).1 0⟩

/-- C7: the Weighted Blend selector falls back to the Uniform Random
policy on histories of fewer than 10 draws (still returning a valid
selection, never an error), and uses the 15/70/15 weighted blend
(`mixtoCore`) for histories of 10 or more draws. -/
theorem mixto_insufficient_history_fallback (rb : Nat → Nat)
    (hist1 hist2 : List Draw) (h1 : hist1.length < 10) (h2 : 10 ≤ hist2.length) :
    (metodo_mixto_15_70_15 rb hist1 12 6 = metodo_aleatorio rb hist1 ∧
      validSel (metodo_mixto_15_70_15 rb hist1 12 6)) ∧
    metodo_mixto_15_70_15 rb hist2 12 6 = mixtoCore hist2 12 6 := by
  refine ⟨⟨?_, valid_mixto rb hist1 12⟩, mixto_eq_core rb hist2 12 6 (by omega)⟩
  rw [metodo_mixto_15_70_15, if_pos h1]

/-- Witness for `mixto_insufficient_history_fallback` at the empty history
and a concrete 10-draw history. -/
theorem mixto_insufficient_history_fallback_witness :
    ([] : List Draw).length < 10 ∧
    10 ≤ (List.replicate 10 (Draw.mk "d" [1, 2, 3, 4, 5, 6] 0)).length ∧
    metodo_mixto_15_70_15 (fun _ => 0) [] 12 6 = metodo_aleatorio (fun _ => 0) [] :=
  ⟨by decide, by decide,
   (mixto_insufficient_history_fallback (fun _ => 0) []
     (List.replicate 10 (Draw.mk "d" [1, 2, 3, 4, 5, 6] 0))
     (by decide) (by decide)).1.1⟩

/-! ### History loading -/

theorem mapM_parse_some : ∀ rows : List RawRow,
    (∀ row ∈ rows, (parseRow row).isSome) →
      ∃ l, rows.mapM parseRow = some l ∧ l.length = rows.length := by
  intro rows
  induction rows with
  | nil => intro _; exact ⟨[], rfl, rfl⟩
  | cons r rs ih =>
    intro h
    obtain ⟨d, hd⟩ := Option.isSome_iff_exists.1 (h r (List.mem_cons_self r rs))
    obtain ⟨l, hl, hlen⟩ := ih (fun row hrow => h row (List.mem_cons_of_mem _ hrow))
    refine ⟨d :: l, ?_, by simp [hlen]⟩
    have hl2 : List.mapM.loop parseRow rs [] = some l := hl
    rw [List.mapM_cons]
    simp [hd, hl2]

/-- C4 (counterexample): a row whose six main numbers are the duplicate
value 7 — not six distinct in-range integers — is loaded successfully by
`cargar` (no data-format error), refuting the claim that malformed rows
make the run fail. -/
theorem cargar_accepts_malformed_row :
    cargar [RawRow.mk "2020-01-01" "7" "7" "7" "7" "7" "7" "0"] =
      some [Draw.mk "2020-01-01" [7, 7, 7, 7, 7, 7] 0] ∧
    ¬([7, 7, 7, 7, 7, 7] : List Int).Nodup := by
  constructor
  · decide
  · decide

/-- C4 (amended): `cargar` performs no validation beyond integer parsing:
whenever every cell of every row parses as an integer, the whole file
loads successfully and every row is kept (none dropped, none rejected) —
including rows with duplicate or out-of-range main numbers.  Only a
non-integer cell (a `ValueError` from `int()`) aborts the run. -/
theorem cargar_never_drops_or_rejects_parsed_rows (rows : List RawRow)
    (h : ∀ row ∈ rows, (parseRow row).isSome) :
    ∃ s, cargar rows = some s ∧ s.length = rows.length := by
  obtain ⟨l, hl, hlen⟩ := mapM_parse_some rows h
  refine ⟨l.reverse, ?_, by simp [hlen]⟩
  rw [cargar, hl]
  rfl

/-- Witness for `cargar_never_drops_or_rejects_parsed_rows` at the
duplicate-numbers row. -/
theorem cargar_never_drops_witness :
    (∀ row ∈ [RawRow.mk "2020-01-01" "7" "7" "7" "7" "7" "7" "0"],
      (parseRow row).isSome) ∧
    ∃ s, cargar [RawRow.mk "2020-01-01" "7" "7" "7" "7" "7" "7" "0"] = some s ∧
      s.length = 1 :=
  ⟨by decide,
   cargar_never_drops_or_rejects_parsed_rows
     [RawRow.mk "2020-01-01" "7" "7" "7" "7" "7" "7" "0"] (by decide)⟩

/-! ### Prize-simulator accounting -/

theorem premio_none_val (a : Nat) (r : Bool) (h : (premio a r).1 = none) :
    (premio a r).2 = 0 := by
  rw [premio] at h ⊢
  split_ifs at h ⊢
  all_goals simp_all

/-- The `mejor_val` loop computes exactly the maximum single-ticket prize
value of the draw. -/
theorem mejorVal_eq_max (boletos : List Boleto) (gan : List Int) (rein : Int) :
    mejorVal boletos gan rein =
      (boletos.map
        (fun b => (premio (aciertos b.1 gan) (b.2 == rein)).2)).foldl max 0 := by
  rw [mejorVal, List.foldl_map]
  congr 1
  funext m b
  rcases hp : premio (aciertos b.1 gan) (b.2 == rein) with ⟨ocat, val⟩
  cases ocat with
  | none =>
    have h0 : val = 0 := by
      have := premio_none_val (aciertos b.1 gan) (b.2 == rein) (by rw [hp])
      rw [hp] at this
      exact this
    simp [hp, h0]
  | some c =>
    simp only [hp]
    split <;> omega

/-- The `conteo[cat] += 1` loop counts one increment per winning ticket of
the draw, for each category. -/
theorem conteoStep_count (gan : List Int) (rein : Int) :
    ∀ (boletos : List Boleto) (conteo : Cat → Nat) (cat : Cat),
      conteoStep boletos gan rein conteo cat =
        conteo cat + (boletos.filter
          (fun b => (premio (aciertos b.1 gan) (b.2 == rein)).1 = some cat)).length := by
  intro boletos
  induction boletos with
  | nil => intro conteo cat; simp [conteoStep]
  | cons b bs ih =>
    intro conteo cat
    have hcons : conteoStep (b :: bs) gan rein conteo =
        conteoStep bs gan rein
          (match premio (aciertos b.1 gan) (b.2 == rein) with
           | (some cat2, _) => fun k => if k = cat2 then conteo k + 1 else conteo k
           | (none, _) => conteo) := by
      rw [conteoStep, conteoStep, List.foldl_cons]
    rw [hcons, List.filter_cons]
    rcases hp : premio (aciertos b.1 gan) (b.2 == rein) with ⟨ocat, val⟩
    cases ocat with
    | none =>
      simp only [hp]
      rw [ih conteo cat]
      simp
    | some c =>
      simp only [hp]
      rw [ih (fun k => if k = c then conteo k + 1 else conteo k) cat]
      by_cases hcat : c = cat
      · subst hcat
        simp
        omega
      · have h2 : ¬(cat = c) := fun hh => hcat hh.symm
        simp [hcat, h2]

/-- Componentwise description of the prize-simulation fold: cost is the
sum of the per-step ticket counts, winnings the sum of the per-step best
values, the counts the sums of the per-step per-ticket matches. -/
theorem simFold_spec (sorteos : List Draw) (estrategia : List Draw → List Boleto) :
    ∀ (idxs : List Int) (st : Nat × Nat × (Cat → Nat)),
      (idxs.foldl (simStep sorteos estrategia) st).1 =
        st.1 + (idxs.map (fun i => (simStepTickets estrategia sorteos i).length)).sum ∧
      (idxs.foldl (simStep sorteos estrategia) st).2.1 =
        st.2.1 + (idxs.map (fun i => mejorVal (simStepTickets estrategia sorteos i)
          (pyGet sorteos i).numeros (pyGet sorteos i).reintegro)).sum ∧
      ∀ cat, (idxs.foldl (simStep sorteos estrategia) st).2.2 cat =
        st.2.2 cat + (idxs.map (fun i =>
          ((simStepTickets estrategia sorteos i).filter
            (fun b => (premio (aciertos b.1 (pyGet sorteos i).numeros)
              (b.2 == (pyGet sorteos i).reintegro)).1 = some cat)).length)).sum := by
  intro idxs
  induction idxs with
  | nil => intro st; refine ⟨by simp, by simp, fun cat => by simp⟩
  | cons i rest ih =>
    intro st
    rw [List.foldl_cons]
    obtain ⟨ih1, ih2, ih3⟩ := ih (simStep sorteos estrategia st i)
    refine ⟨?_, ?_, ?_⟩
    · rw [ih1, simStep]
      simp only [List.map_cons, List.sum_cons]
      omega
    · rw [ih2, simStep]
      simp only [List.map_cons, List.sum_cons]
      omega
    · intro cat
      rw [ih3 cat, simStep]
      simp only [List.map_cons, List.sum_cons]
      rw [conteoStep_count]
      omega

/-- C5: over the `n_sims` evaluated draws, with a strategy playing `T`
tickets per draw, the accumulated cost equals `T * n_sims`, and the
accumulated winnings are the sum, over the evaluated draws, of the value
of the single highest-value prize category matched by that draw's tickets
(never a sum across several tickets of one draw). -/
theorem simulator_accounting (sorteos : List Draw)
    (estrategia : List Draw → List Boleto) (n_sims T : Nat)
    (hT : ∀ h, (estrategia h).length = T) (hn : n_sims ≤ sorteos.length) :
    (simular_con_reintegros sorteos estrategia n_sims).1 = T * n_sims ∧
    (simular_con_reintegros sorteos estrategia n_sims).2.1 =
      ((intRange ((sorteos.length : Int) - n_sims) (sorteos.length : Int)).map
        (fun i => ((simStepTickets estrategia sorteos i).map
          (fun b => (premio (aciertos b.1 (pyGet sorteos i).numeros)
            (b.2 == (pyGet sorteos i).reintegro)).2)).foldl max 0)).sum := by
  obtain ⟨h1, h2, -⟩ := simFold_spec sorteos estrategia
    (intRange ((sorteos.length : Int) - n_sims) (sorteos.length : Int)) (0, 0, fun _ => 0)
  constructor
  · rw [simular_con_reintegros]
    simp only []
    rw [h1]
    have hmap : (intRange ((sorteos.length : Int) - n_sims) (sorteos.length : Int)).map
        (fun i => (simStepTickets estrategia sorteos i).length) =
        (intRange ((sorteos.length : Int) - n_sims) (sorteos.length : Int)).map
          (fun _ => T) :=
      List.map_congr_left (fun i _ => hT _)
    rw [hmap, List.map_const', List.sum_replicate, smul_eq_mul,
      length_intRange]
    have : ((sorteos.length : Int) - ((sorteos.length : Int) - n_sims)).toNat = n_sims := by
      omega
    rw [this, Nat.mul_comm]
    simp
  · rw [simular_con_reintegros]
    simp only []
    rw [h2]
    simp only [Nat.zero_add]
    congr 1
    apply List.map_congr_left
    intro i _
    exact mejorVal_eq_max _ _ _

/-- Witness for `simulator_accounting`: a one-ticket strategy over a
single-draw history. -/
theorem simulator_accounting_witness :
    (∀ h : List Draw, (((fun _ => [(([1, 2, 3, 9, 10, 11] : List Int), (7 : Int))]) :
        List Draw → List Boleto) h).length = 1) ∧
    1 ≤ ([Draw.mk "a" [1, 2, 3, 4, 5, 6] 7]).length ∧
    (simular_con_reintegros [Draw.mk "a" [1, 2, 3, 4, 5, 6] 7]
      (fun _ => [(([1, 2, 3, 9, 10, 11] : List Int), (7 : Int))]) 1).1 = 1 * 1 :=
  ⟨fun _ => rfl, by decide,
   (simulator_accounting [Draw.mk "a" [1, 2, 3, 4, 5, 6] 7]
     (fun _ => [(([1, 2, 3, 9, 10, 11] : List Int), (7 : Int))]) 1 1
     (fun _ => rfl) (by decide)).1⟩

/-- C9: the pooled per-category counts of `simular_con_reintegros` are
incremented once for every ticket matching a payout category, summed over
all evaluated draws — several tickets of one draw each contribute, whether
or not their value was the one added to the winnings. -/
theorem simulator_counts_every_matching_ticket (sorteos : List Draw)
    (estrategia : List Draw → List Boleto) (n_sims : Nat) (cat : Cat) :
    (simular_con_reintegros sorteos estrategia n_sims).2.2.2 cat =
      ((intRange ((sorteos.length : Int) - n_sims) (sorteos.length : Int)).map
        (fun i => ((simStepTickets estrategia sorteos i).filter
          (fun b => (premio (aciertos b.1 (pyGet sorteos i).numeros)
            (b.2 == (pyGet sorteos i).reintegro)).1 = some cat)).length)).sum := by
  obtain ⟨-, -, h3⟩ := simFold_spec sorteos estrategia
    (intRange ((sorteos.length : Int) - n_sims) (sorteos.length : Int)) (0, 0, fun _ => 0)
  rw [simular_con_reintegros]
  simp only []
  rw [h3 cat]
  simp

/-! ### The backtest histogram -/

theorem aciertos_le (pred nums : List Int) : aciertos pred nums ≤ nums.dedup.length := by
  rw [aciertos]
  have hnd : (pred.dedup.filter (fun x => x ∈ nums)).Nodup :=
    (List.nodup_dedup pred).filter _
  have hsub : pred.dedup.filter (fun x => x ∈ nums) ⊆ nums.dedup := by
    intro x hx
    obtain ⟨-, hmem⟩ := List.mem_filter.1 hx
    simp only [decide_eq_true_eq] at hmem
    exact List.mem_dedup.2 hmem
  exact (hnd.subperm hsub).length_le

theorem foldl_max_bound (g : Nat → Nat) (B : Nat) :
    ∀ (l : List Nat) (m : Nat), m ≤ B → (∀ r ∈ l, g r ≤ B) →
      l.foldl (fun m r => max m (g r)) m ≤ B := by
  intro l
  induction l with
  | nil => intro m hm _; simpa using hm
  | cons r rest ih =>
    intro m hm hg
    rw [List.foldl_cons]
    exact ih _ (by
      have := hg r (List.mem_cons_self _ _)
      omega) (fun r2 h2 => hg r2 (List.mem_cons_of_mem _ h2))

theorem mejorDe_le (metodo : Sel) (rbAt : Int → Nat → Nat → Nat)
    (sorteos : List Draw) (i : Int) (reps : Nat)
    (hvalid : ∀ d ∈ sorteos, d.numeros.dedup.length ≤ 6) :
    mejorDe metodo rbAt sorteos i reps ≤ 6 := by
  rw [mejorDe]
  apply foldl_max_bound _ 6 _ 0 (by omega)
  intro r _
  have hle := aciertos_le (backtestPred metodo rbAt sorteos i r) (pyGet sorteos i).numeros
  rcases pyGet_mem_or_default sorteos i with hmem | hdef
  · exact le_trans hle (hvalid _ hmem)
  · rw [hdef]
    have hle2 := aciertos_le (backtestPred metodo rbAt sorteos i r) (default : Draw).numeros
    have h0 : (default : Draw).numeros.dedup.length = 0 := rfl
    omega

theorem bumpAt_length (l : List Nat) (k : Nat) : (bumpAt l k).length = l.length := by
  rw [bumpAt, List.length_set]

theorem bumpAt_sum {l : List Nat} {k : Nat} (h : k < l.length) :
    (bumpAt l k).sum = l.sum + 1 := by
  rw [bumpAt]
  induction l generalizing k with
  | nil => simp at h
  | cons x xs ih =>
    cases k with
    | zero => simp [List.getD]; omega
    | succ k =>
      simp only [List.set, List.sum_cons, List.getD_cons_succ]
      rw [ih (by simpa using h)]
      omega

/-- The histogram fold: its total grows by exactly one per processed
(nonempty-prefix) step and by zero on skipped steps. -/
theorem backtestFold_sum (metodo : Sel) (rbAt : Int → Nat → Nat → Nat)
    (sorteos : List Draw) (reps : Nat)
    (hvalid : ∀ d ∈ sorteos, d.numeros.dedup.length ≤ 6) :
    ∀ (idxs : List Int) (acc : List Nat), acc.length = 7 →
      (idxs.foldl (backtestStep metodo rbAt sorteos reps) acc).length = 7 ∧
      (idxs.foldl (backtestStep metodo rbAt sorteos reps) acc).sum =
        acc.sum + (idxs.filter (fun i => ¬pySlice sorteos i = [])).length := by
  intro idxs
  induction idxs with
  | nil => intro acc hlen; simp [hlen]
  | cons i rest ih =>
    intro acc hlen
    rw [List.foldl_cons, List.filter_cons]
    by_cases hempty : pySlice sorteos i = []
    · have hstep : backtestStep metodo rbAt sorteos reps acc i = acc := by
        rw [backtestStep, if_pos hempty]
      rw [hstep]
      obtain ⟨ihl, ihs⟩ := ih acc hlen
      refine ⟨ihl, ?_⟩
      rw [ihs]
      simp [hempty]
    · have hstep : backtestStep metodo rbAt sorteos reps acc i =
          bumpAt acc (mejorDe metodo rbAt sorteos i reps) := by
        rw [backtestStep, if_neg hempty]
      rw [hstep]
      have hklt : mejorDe metodo rbAt sorteos i reps < acc.length := by
        have := mejorDe_le metodo rbAt sorteos i reps hvalid
        omega
      obtain ⟨ihl, ihs⟩ := ih (bumpAt acc (mejorDe metodo rbAt sorteos i reps))
        (by rw [bumpAt_length, hlen])
      refine ⟨ihl, ?_⟩
      rw [ihs, bumpAt_sum hklt]
      simp [hempty]
      omega

/-- C8: a backtest step with an empty history prefix is skipped without
touching the histogram, so the histogram total equals the number of loop
steps whose prefix is nonempty. -/
theorem backtest_skips_empty_steps (sorteos : List Draw) (metodo : Sel)
    (rbAt : Int → Nat → Nat → Nat) (n reps : Nat)
    (hvalid : ∀ d ∈ sorteos, d.numeros.dedup.length ≤ 6) :
    (∀ (acc : List Nat) (i : Int), pySlice sorteos i = [] →
      backtestStep metodo rbAt sorteos reps acc i = acc) ∧
    (backtestHist sorteos metodo rbAt n reps).sum =
      ((intRange ((sorteos.length : Int) - n) (sorteos.length : Int)).filter
        (fun i => ¬pySlice sorteos i = [])).length := by
  constructor
  · intro acc i h
    rw [backtestStep, if_pos h]
  · rw [backtestHist]
    obtain ⟨-, hs⟩ := backtestFold_sum metodo rbAt sorteos reps hvalid
      (intRange ((sorteos.length : Int) - n) (sorteos.length : Int))
      (List.replicate 7 0) (by simp)
    rw [hs]
    simp

/-- Witness for `backtest_skips_empty_steps` on a concrete two-draw
history: the step at index 0 (empty prefix) is skipped, so only one of the
two steps is counted. -/
theorem backtest_skips_empty_steps_witness :
    (∀ d ∈ [Draw.mk "a" [1, 2, 3, 4, 5, 6] 0, Draw.mk "b" [7, 8, 9, 10, 11, 12] 1],
      d.numeros.dedup.length ≤ 6) ∧
    (backtestHist [Draw.mk "a" [1, 2, 3, 4, 5, 6] 0, Draw.mk "b" [7, 8, 9, 10, 11, 12] 1]
        (fun rb h => metodo_frecuencias rb h 6) (fun _ _ _ => 0) 2 1).sum =
      ((intRange ((([Draw.mk "a" [1, 2, 3, 4, 5, 6] 0,
          Draw.mk "b" [7, 8, 9, 10, 11, 12] 1]).length : Int) - 2)
          (([Draw.mk "a" [1, 2, 3, 4, 5, 6] 0,
            Draw.mk "b" [7, 8, 9, 10, 11, 12] 1]).length : Int)).filter
        (fun i => ¬pySlice [Draw.mk "a" [1, 2, 3, 4, 5, 6] 0,
          Draw.mk "b" [7, 8, 9, 10, 11, 12] 1] i = [])).length :=
  ⟨by decide,
   (backtest_skips_empty_steps
     [Draw.mk "a" [1, 2, 3, 4, 5, 6] 0, Draw.mk "b" [7, 8, 9, 10, 11, 12] 1]
     (fun rb h => metodo_frecuencias rb h 6) (fun _ _ _ => 0) 2 1 (by decide)).2⟩

/-! ### Negative start index in `backtest` -/

theorem intRange_append (a c b : Int) (h1 : a ≤ c) (h2 : c ≤ b) :
    intRange a b = intRange a c ++ intRange c b := by
  rw [intRange, intRange, intRange]
  have hm : (b - a).toNat = (c - a).toNat + (b - c).toNat := by omega
  rw [hm, List.range_add, List.map_append, List.map_map]
  congr 1
  apply List.map_congr_left
  intro k hk
  simp only [Function.comp_apply]
  omega

theorem count_map_add_range (c m j : Nat) :
    (((List.range m).map (fun k => c + k)).count j) =
      if c ≤ j ∧ j < c + m then 1 else 0 := by
  by_cases h : c ≤ j ∧ j < c + m
  · rw [if_pos h]
    apply List.count_eq_one_of_mem
    · exact (List.nodup_range m).map (fun x y hxy => by omega)
    · simp only [List.mem_map, List.mem_range]
      exact ⟨j - c, by omega, by omega⟩
  · rw [if_neg h]
    apply List.count_eq_zero_of_not_mem
    intro hmem
    obtain ⟨k, hk, hkj⟩ := List.mem_map.1 hmem
    rw [List.mem_range] at hk
    omega

theorem map_effN_neg (L n : Nat) (hLn : L ≤ n) (hn2 : n ≤ 2 * L) :
    (intRange ((L : Int) - n) 0).map (effN L) =
      (List.range (n - L)).map (fun k => 2 * L - n + k) := by
  rw [intRange, List.map_map]
  have hlen : ((0 : Int) - ((L : Int) - n)).toNat = n - L := by omega
  rw [hlen]
  apply List.map_congr_left
  intro k hk
  rw [List.mem_range] at hk
  simp only [Function.comp_apply]
  rw [effN, if_pos (by omega)]
  omega

theorem map_effN_nonneg (L : Nat) :
    (intRange 0 (L : Int)).map (effN L) = (List.range L).map (fun k => 0 + k) := by
  rw [intRange, List.map_map]
  have hlen : ((L : Int) - 0).toNat = L := by omega
  rw [hlen]
  apply List.map_congr_left
  intro k hk
  simp only [Function.comp_apply]
  rw [effN, if_neg (by omega)]
  omega

theorem pySlice_zero (l : List Draw) : pySlice l (0 : Int) = [] := by
  rw [pySlice]
  have : effN l.length 0 = 0 := by simp [effN]
  rw [this, List.take_zero]

theorem pySlice_ne_nil (l : List Draw) (i : Int) (hne : l ≠ [])
    (h : effN l.length i ≠ 0) : pySlice l i ≠ [] := by
  rw [pySlice]
  intro hc
  rcases List.take_eq_nil_iff.1 hc with hc | hc
  · exact h hc
  · exact hne hc

/-- C10 (counterexample): for a one-draw history and `n = 2` the claim's
premise `L < N ≤ 2L` holds, yet nothing is double-counted: both loop
passes over draw 0 see an empty prefix and are skipped, so the histogram
total is 0 — neither incremented twice for draw 0 nor inflated. -/
theorem backtest_no_double_count_at_boundary :
    (1 : Nat) < 2 ∧ 2 ≤ 2 * 1 ∧
    ([Draw.mk "a" [1, 2, 3, 4, 5, 6] 0] : List Draw).length = 1 ∧
    (backtestHist [Draw.mk "a" [1, 2, 3, 4, 5, 6] 0]
      (fun rb h => metodo_frecuencias rb h 6) (fun _ _ _ => 0) 2 1).sum = 0 := by
  refine ⟨by decide, by decide, by decide, ?_⟩
  decide

/-- C10 (amended): `backtest` does not validate `N ≤ L`.  For `L < N < 2L`
the starting index `L-N` is negative, Python's negative indexing wraps,
and each draw at index `2L-N .. L-1` is visited exactly twice — each visit
reading exactly the prefix `sorteos[:j]` of its effective index `j` — so
the histogram total is `N-1`, strictly above the `L-1` distinct draws
evaluated.  (At `N = 2L` the wrapped pass also revisits draw 0, but both
of its visits have an empty prefix and are skipped.) -/
theorem backtest_negative_start_double_counts (sorteos : List Draw) (metodo : Sel)
    (rbAt : Int → Nat → Nat → Nat) (n reps : Nat)
    (hvalid : ∀ d ∈ sorteos, d.numeros.dedup.length ≤ 6)
    (hLn : sorteos.length < n) (hn2 : n < 2 * sorteos.length) :
    (backtestHist sorteos metodo rbAt n reps).sum = n - 1 ∧
    (∀ j : Nat, 2 * sorteos.length - n ≤ j → j < sorteos.length →
      ((intRange ((sorteos.length : Int) - n) (sorteos.length : Int)).map
        (effN sorteos.length)).count j = 2) ∧
    (∀ i : Int, ∀ r : Nat, backtestPred metodo rbAt sorteos i r =
      metodo (rbAt i r) (sorteos.take (effN sorteos.length i))) ∧
    sorteos.length - 1 < n - 1 := by
  have hL2 : 2 ≤ sorteos.length := by omega
  have hne : sorteos ≠ [] := by
    intro hc
    rw [hc] at hL2
    simp at hL2
  refine ⟨?_, ?_, fun i r => rfl, by omega⟩
  · rw [backtestHist]
    obtain ⟨-, hs⟩ := backtestFold_sum metodo rbAt sorteos reps hvalid
      (intRange ((sorteos.length : Int) - n) (sorteos.length : Int))
      (List.replicate 7 0) (by simp)
    rw [hs]
    simp only [List.sum_replicate, smul_eq_mul, Nat.mul_zero, Nat.zero_add]
    have hsplit1 : intRange ((sorteos.length : Int) - n) (sorteos.length : Int) =
        intRange ((sorteos.length : Int) - n) 0 ++
          intRange 0 (sorteos.length : Int) :=
      intRange_append _ _ _ (by omega) (by omega)
    have hsplit2 : intRange 0 (sorteos.length : Int) =
        intRange 0 1 ++ intRange 1 (sorteos.length : Int) :=
      intRange_append _ _ _ (by omega) (by omega)
    rw [hsplit1, hsplit2, List.filter_append, List.filter_append,
      List.length_append, List.length_append]
    have hpart1 : (intRange ((sorteos.length : Int) - n) 0).filter
        (fun i => ¬pySlice sorteos i = []) =
        intRange ((sorteos.length : Int) - n) 0 := by
      rw [List.filter_eq_self]
      intro i hi
      rw [mem_intRange] at hi
      simp only [decide_eq_true_eq]
      apply pySlice_ne_nil sorteos i hne
      rw [effN, if_pos (by omega)]
      omega
    have hpart2 : (intRange 0 1).filter (fun i => ¬pySlice sorteos i = []) = [] := by
      have h01 : intRange 0 1 = [(0 : Int)] := by decide
      rw [h01]
      simp [pySlice_zero]
    have hpart3 : (intRange 1 (sorteos.length : Int)).filter
        (fun i => ¬pySlice sorteos i = []) =
        intRange 1 (sorteos.length : Int) := by
      rw [List.filter_eq_self]
      intro i hi
      rw [mem_intRange] at hi
      simp only [decide_eq_true_eq]
      apply pySlice_ne_nil sorteos i hne
      rw [effN, if_neg (by omega)]
      omega
    rw [hpart1, hpart2, hpart3, length_intRange, length_intRange]
    simp only [List.length_nil]
    omega
  · intro j hj1 hj2
    have hsplit1 : intRange ((sorteos.length : Int) - n) (sorteos.length : Int) =
        intRange ((sorteos.length : Int) - n) 0 ++
          intRange 0 (sorteos.length : Int) :=
      intRange_append _ _ _ (by omega) (by omega)
    rw [hsplit1, List.map_append, List.count_append,
      map_effN_neg sorteos.length n (by omega) (by omega),
      map_effN_nonneg sorteos.length,
      count_map_add_range (2 * sorteos.length - n) (n - sorteos.length) j,
      count_map_add_range 0 sorteos.length j,
      if_pos (by omega), if_pos (by omega)]

/-- Witness for `backtest_negative_start_double_counts`: a two-draw
history evaluated with `n = 3`. -/
theorem backtest_negative_start_double_counts_witness :
    (∀ d ∈ [Draw.mk "a" [1, 2, 3, 4, 5, 6] 0, Draw.mk "b" [7, 8, 9, 10, 11, 12] 1],
      d.numeros.dedup.length ≤ 6) ∧
    ([Draw.mk "a" [1, 2, 3, 4, 5, 6] 0,
      Draw.mk "b" [7, 8, 9, 10, 11, 12] 1] : List Draw).length < 3 ∧
    3 < 2 * ([Draw.mk "a" [1, 2, 3, 4, 5, 6] 0,
      Draw.mk "b" [7, 8, 9, 10, 11, 12] 1] : List Draw).length ∧
    (backtestHist [Draw.mk "a" [1, 2, 3, 4, 5, 6] 0, Draw.mk "b" [7, 8, 9, 10, 11, 12] 1]
      (fun rb h => metodo_frecuencias rb h 6) (fun _ _ _ => 0) 3 1).sum = 3 - 1 :=
  ⟨by decide, by decide, by decide,
   (backtest_negative_start_double_counts
     [Draw.mk "a" [1, 2, 3, 4, 5, 6] 0, Draw.mk "b" [7, 8, 9, 10, 11, 12] 1]
     (fun rb h => metodo_frecuencias rb h 6) (fun _ _ _ => 0) 3 1
     (by decide) (by decide) (by decide)).1⟩

/-! ### Structural refinement -/

/-- C6 (counterexample): for a history of fewer than 10 draws,
`refinar_combinacion` returns the selection unchanged even when its sum is
far above 200 — no swap of the maximum happens, refuting the claim as
stated for every history. -/
theorem refinar_no_swap_on_short_history :
    (200 : Int) < ([44, 45, 46, 47, 48, 49] : List Int).sum ∧
    refinar_combinacion [44, 45, 46, 47, 48, 49] [] = [44, 45, 46, 47, 48, 49] ∧
    (49 : Int) ∈ refinar_combinacion [44, 45, 46, 47, 48, 49] [] := by
  refine ⟨by decide, by decide, by decide⟩

theorem exists_low_unused {combo : List Int} (hv : validSel combo)
    (hP : 7 ≤ pyMax combo) :
    ∃ x : Int, x ∈ ([1, 2, 3, 4, 5, 6] : List Int) ∧ x ∉ combo := by
  by_contra hcon
  push_neg at hcon
  have hsub : ([1, 2, 3, 4, 5, 6] : List Int) ⊆ combo := fun x hx => hcon x hx
  have hnd6 : ([1, 2, 3, 4, 5, 6] : List Int).Nodup := by decide
  have hperm : List.Perm ([1, 2, 3, 4, 5, 6] : List Int) combo :=
    (hnd6.subperm hsub).perm_of_length_le (by rw [hv.1]; decide)
  have hmem : pyMax combo ∈ ([1, 2, 3, 4, 5, 6] : List Int) :=
    hperm.mem_iff.2 (pyMax_mem (by
      intro hc
      rw [hc] at hv
      exact absurd hv.1 (by simp)))
  have hle : ∀ x ∈ ([1, 2, 3, 4, 5, 6] : List Int), x ≤ 6 := by decide
  have := hle _ hmem
  omega

theorem exists_high_unused {combo : List Int} (hv : validSel combo)
    (hP : pyMin combo ≤ 43) :
    ∃ x : Int, x ∈ ([44, 45, 46, 47, 48, 49] : List Int) ∧ x ∉ combo := by
  by_contra hcon
  push_neg at hcon
  have hsub : ([44, 45, 46, 47, 48, 49] : List Int) ⊆ combo := fun x hx => hcon x hx
  have hnd6 : ([44, 45, 46, 47, 48, 49] : List Int).Nodup := by decide
  have hperm : List.Perm ([44, 45, 46, 47, 48, 49] : List Int) combo :=
    (hnd6.subperm hsub).perm_of_length_le (by rw [hv.1]; decide)
  have hmem : pyMin combo ∈ ([44, 45, 46, 47, 48, 49] : List Int) :=
    hperm.mem_iff.2 (pyMin_mem (by
      intro hc
      rw [hc] at hv
      exact absurd hv.1 (by simp)))
  have hle : ∀ x ∈ ([44, 45, 46, 47, 48, 49] : List Int), 44 ≤ x := by decide
  have := hle _ hmem
  omega

theorem sum_le_six_pyMax {combo : List Int} (hv : validSel combo) :
    combo.sum ≤ 6 * pyMax combo := by
  have h := List.sum_le_card_nsmul combo (pyMax combo) (fun x hx => le_pyMax hx)
  rw [hv.1] at h
  simpa [nsmul_eq_mul] using h

theorem six_pyMin_le_sum {combo : List Int} (hv : validSel combo) :
    6 * pyMin combo ≤ combo.sum := by
  have h := List.card_nsmul_le_sum combo (pyMin combo) (fun x hx => pyMin_le hx)
  rw [hv.1] at h
  simpa [nsmul_eq_mul] using h

/-- C6 (amended): `refinar_combinacion` never changes the selection's
cardinality; it returns the selection unchanged (sorted) when the history
has fewer than 10 draws or when the sum already lies in `[100,200]`; for a
history of at least 10 draws and a sum above 200 it performs exactly one
swap, replacing the maximum element by an unused in-range number strictly
below it with maximal historical frequency among such candidates
(symmetrically for the minimum when the sum is below 100). -/
theorem refinar_structural_spec (combo : List Int) (hist : List Draw)
    (hv : validSel combo) :
    (refinar_combinacion combo hist).length = 6 ∧
    (hist.length < 10 → refinar_combinacion combo hist = pySorted combo) ∧
    (100 ≤ combo.sum → combo.sum ≤ 200 →
      refinar_combinacion combo hist = pySorted combo) ∧
    (10 ≤ hist.length → 200 < combo.sum →
      ∃ c, c ∉ combo ∧ 1 ≤ c ∧ c ≤ 49 ∧ c < pyMax combo ∧
        (∀ y, 1 ≤ y → y ≤ 49 → y ∉ combo → y < pyMax combo →
          frecuencia hist y ≤ frecuencia hist c) ∧
        refinar_combinacion combo hist = pySorted (combo.erase (pyMax combo) ++ [c])) ∧
    (10 ≤ hist.length → combo.sum < 100 →
      ∃ c, c ∉ combo ∧ 1 ≤ c ∧ c ≤ 49 ∧ pyMin combo < c ∧
        (∀ y, 1 ≤ y → y ≤ 49 → y ∉ combo → pyMin combo < y →
          frecuencia hist y ≤ frecuencia hist c) ∧
        refinar_combinacion combo hist = pySorted (combo.erase (pyMin combo) ++ [c])) := by
  refine ⟨(refinar_valid combo hist hv).1, ?_, ?_, ?_, ?_⟩
  · intro h10
    rw [refinar_combinacion, if_pos h10]
  · intro h100 h200
    by_cases h10 : hist.length < 10
    · rw [refinar_combinacion, if_pos h10]
    · simp only [refinar_combinacion]
      rw [if_neg h10, if_pos ⟨h100, h200⟩]
  · intro h10 hsum
    have hP : 34 ≤ pyMax combo := by
      have := sum_le_six_pyMax hv
      omega
    obtain ⟨x, hx6, hxnot⟩ := exists_low_unused hv (by omega)
    have hxle : x ≤ 6 ∧ 1 ≤ x := by
      have h1 : ∀ y ∈ ([1, 2, 3, 4, 5, 6] : List Int), y ≤ 6 ∧ 1 ≤ y := by decide
      exact h1 x hx6
    have hxcand : x ∈ rango.filter (fun z => z ∉ combo ∧ z < pyMax combo) := by
      rw [List.mem_filter]
      refine ⟨mem_rango.2 (by omega), by simp [hxnot]; omega⟩
    rcases hcand : pySortKey (fun z => -(frecuencia hist z : Int))
        (rango.filter (fun z => z ∉ combo ∧ z < pyMax combo)) with _ | ⟨c, rest⟩
    · exfalso
      have : x ∈ pySortKey (fun z => -(frecuencia hist z : Int))
          (rango.filter (fun z => z ∉ combo ∧ z < pyMax combo)) :=
        (pySortKey_mem _).2 hxcand
      rw [hcand] at this
      simp at this
    · have hcmem : c ∈ rango.filter (fun z => z ∉ combo ∧ z < pyMax combo) := by
        rw [← pySortKey_mem (fun z => -(frecuencia hist z : Int)), hcand]
        exact List.mem_cons_self _ _
      obtain ⟨hcr, hcp⟩ := List.mem_filter.1 hcmem
      simp only [decide_eq_true_eq] at hcp
      refine ⟨c, hcp.1, (mem_rango.1 hcr).1, (mem_rango.1 hcr).2, hcp.2, ?_, ?_⟩
      · intro y hy1 hy2 hynot hylt
        have hycand : y ∈ rango.filter (fun z => z ∉ combo ∧ z < pyMax combo) := by
          rw [List.mem_filter]
          exact ⟨mem_rango.2 ⟨hy1, hy2⟩, by simp [hynot, hylt]⟩
        have := pySortKey_head_le _ hcand y hycand
        omega
      · simp only [refinar_combinacion]
        rw [if_neg (by omega), if_neg (by omega), if_pos hsum, hcand]
  · intro h10 hsum
    have hP : pyMin combo ≤ 16 := by
      have := six_pyMin_le_sum hv
      omega
    obtain ⟨x, hx6, hxnot⟩ := exists_high_unused hv (by omega)
    have hxle : x ≤ 49 ∧ 44 ≤ x := by
      have h1 : ∀ y ∈ ([44, 45, 46, 47, 48, 49] : List Int), y ≤ 49 ∧ 44 ≤ y := by decide
      exact h1 x hx6
    have hxcand : x ∈ rango.filter (fun z => z ∉ combo ∧ pyMin combo < z) := by
      rw [List.mem_filter]
      refine ⟨mem_rango.2 (by omega), by simp [hxnot]; omega⟩
    rcases hcand : pySortKey (fun z => -(frecuencia hist z : Int))
        (rango.filter (fun z => z ∉ combo ∧ pyMin combo < z)) with _ | ⟨c, rest⟩
    · exfalso
      have : x ∈ pySortKey (fun z => -(frecuencia hist z : Int))
          (rango.filter (fun z => z ∉ combo ∧ pyMin combo < z)) :=
        (pySortKey_mem _).2 hxcand
      rw [hcand] at this
      simp at this
    · have hcmem : c ∈ rango.filter (fun z => z ∉ combo ∧ pyMin combo < z) := by
        rw [← pySortKey_mem (fun z => -(frecuencia hist z : Int)), hcand]
        exact List.mem_cons_self _ _
      obtain ⟨hcr, hcp⟩ := List.mem_filter.1 hcmem
      simp only [decide_eq_true_eq] at hcp
      refine ⟨c, hcp.1, (mem_rango.1 hcr).1, (mem_rango.1 hcr).2, hcp.2, ?_, ?_⟩
      · intro y hy1 hy2 hynot hylt
        have hycand : y ∈ rango.filter (fun z => z ∉ combo ∧ pyMin combo < z) := by
          rw [List.mem_filter]
          exact ⟨mem_rango.2 ⟨hy1, hy2⟩, by simp [hynot, hylt]⟩
        have := pySortKey_head_le _ hcand y hycand
        omega
      · simp only [refinar_combinacion]
        rw [if_neg (by omega), if_neg (by omega), if_neg (by omega), hcand]

/-- Witness for `refinar_structural_spec` at a concrete selection and the
empty history. -/
theorem refinar_structural_spec_witness :
    validSel [1, 2, 3, 4, 5, 6] ∧
    (refinar_combinacion [1, 2, 3, 4, 5, 6] []).length = 6 :=
  ⟨by decide, (refinar_structural_spec [1, 2, 3, 4, 5, 6] [] (by decide)).1⟩

end Loteria
